import Mathlib

/-!
Shallow embedding of the `improver` cube-manipulation utilities
(`improver/utilities/cube_manipulation.py` and
`improver/utilities/copy_metadata.py`) and proofs about them.

Machine floating payloads are modelled over `ℚ`; numpy dtypes are modelled
as tags (`DType`) and `astype` as a tag change.  External iris primitives
(aggregation, merging) are modelled from their documented contracts where
the claims need them; each such definition says so in its doc comment.
-/

/-- numpy dtypes relevant to the code: the repository's constants module
(not under `src/`) defines `FLOAT_DTYPE = np.float32` and
`FLOAT_TYPES = (np.float32, np.float64)`. -/
inductive DType where
  | int64 : DType
  | float32 : DType
  | float64 : DType
deriving DecidableEq, Repr, Inhabited

/-- Modelled from the spec: the "declared floating precision" constant
(`improver.metadata.constants.FLOAT_DTYPE`, not under `src/`). -/
def FLOAT_DTYPE : DType := DType.float32

/-- Modelled from the spec: the floating dtypes
(`improver.metadata.constants.FLOAT_TYPES`, not under `src/`). -/
def FLOAT_TYPES : List DType := [DType.float32, DType.float64]

/-- numpy dtype promotion on the three dtypes we model:
equal dtypes stay, int64 mixed with a float dtype gives float64,
float32 mixed with float64 gives float64. -/
def promoteDType : DType → DType → DType
  | DType.int64, DType.int64 => DType.int64
  | DType.float32, DType.float32 => DType.float32
  | _, _ => DType.float64

/-- A machine value that may be the explicit not-a-number marker. -/
inductive MVal where
  | nan : MVal
  | num : ℚ → MVal
deriving DecidableEq, Repr, Inhabited

namespace MetaCompare

/-! ## Metadata Reconciliation: `compare_attributes` / `compare_coords` -/

/-- An iris attribute dictionary, as an ordered association list. -/
abbrev AttrMap := List (String × String)

/-- Dictionary lookup `m[k]`. -/
def lookupAttr (m : AttrMap) (k : String) : Option String :=
  (m.find? (fun p => p.1 == k)).map (fun p => p.2)

/-- Python substring containment (`sub in s`) on character lists. -/
def charsContain (sub : List Char) : List Char → Bool
  | [] => sub.isEmpty
  | c :: rest => sub.isPrefixOf (c :: rest) || charsContain sub rest

/-- Python substring containment `sub in s` for strings. -/
def strContain (s sub : String) : Bool := charsContain sub.toList s.toList

/-- `get_filtered_attributes(cube, attribute_filter)`: the attributes whose
key contains `attribute_filter` (all attributes when the filter is `None`).
The cube is represented by its attribute dictionary. -/
def get_filtered_attributes (attributes : AttrMap) (attribute_filter : Option String) : AttrMap :=
  match attribute_filter with
  | none => attributes
  | some f => attributes.filter (fun p => strContain p.1 f)

/-- One pass of the `common_keys` set-comprehension in `compare_attributes`:
keys of `cube_attributes` that are still common and hold the reference value. -/
def commonKeysStep (reference_attributes : AttrMap) (common_keys : List String)
    (cube_attributes : AttrMap) : List String :=
  (cube_attributes.map (fun p => p.1)).filter (fun key =>
    common_keys.contains key &&
      lookupAttr cube_attributes key == lookupAttr reference_attributes key)

/-- `compare_attributes(cubes, attribute_filter)`.  The second component
collects the `warnings.warn` diagnostics.  (On an empty cube list the
source would raise an `IndexError` at `cubes[0]`; that case is outside
every claim and is returned as an empty result here.) -/
def compare_attributes (cubes : List AttrMap) (attribute_filter : Option String) :
    List AttrMap × List String :=
  if cubes.length == 1 then
    ([], ["Only a single cube so no differences will be found "])
  else
    match cubes with
    | [] => ([], [])
    | c0 :: rest =>
      let reference_attributes := get_filtered_attributes c0 attribute_filter
      let common_keys := rest.foldl
        (fun common cube =>
          commonKeysStep reference_attributes common (get_filtered_attributes cube attribute_filter))
        (reference_attributes.map (fun p => p.1))
      (cubes.map (fun cube =>
        (get_filtered_attributes cube attribute_filter).filter
          (fun p => !(common_keys.contains p.1))), [])

/-- An iris coordinate as compared by `compare_coords`: name, points, bounds. -/
structure CoordC where
  name : String
  points : List ℚ
  bounds : Option (List (ℚ × ℚ))
deriving DecidableEq, Repr

/-- A cube as seen by `compare_coords`: its coordinates in order, the
subset that are dimension coordinates, and the axis mapping of the
auxiliary coordinates (`cube.coord_dims`). -/
structure CmpCube where
  coords : List CoordC
  dim_coords : List CoordC
  aux_dims : List (String × List Nat)
deriving DecidableEq, Repr

/-- `cube.coords(coord)`: the cube's coordinates matching `coord`'s name. -/
def cubeCoordsMatching (cube : CmpCube) (coord : CoordC) : List CoordC :=
  cube.coords.filter (fun x => x.name == coord.name)

/-- `cube.coord_dims(coord)`: a dimension coordinate maps to its axis,
an auxiliary coordinate to its recorded axes. -/
def coordDims (cube : CmpCube) (coord : CoordC) : List Nat :=
  match cube.dim_coords.findIdx? (fun x => x == coord) with
  | some i => [i]
  | none => (((cube.aux_dims.find? (fun p => p.1 == coord.name)).map (fun p => p.2))).getD []

/-- The per-coordinate record `{"data_dims": _, "aux_dims": _, "coord": _}`. -/
structure CoordDiff where
  data_dims : Option Nat
  aux_dims : Option Nat
  coord : CoordC
deriving DecidableEq, Repr

/-- The record built for one unmatching coordinate of one cube. -/
def coordDiffEntry (cube : CmpCube) (coord : CoordC) : String × CoordDiff :=
  let dim_val : Option Nat := cube.dim_coords.findIdx? (fun x => x == coord)
  let aux_val : Option Nat :=
    if dim_val == none then (coordDims cube coord).head? else none
  (coord.name, ⟨dim_val, aux_val, coord⟩)

/-- `compare_coords(cubes, ignored_coords)`.  The second component collects
the `warnings.warn` diagnostics.  (An empty cube list would raise an
`IndexError` in the source; returned empty here, outside every claim.) -/
def compare_coords (cubes : List CmpCube) (ignored_coords : List String) :
    List (List (String × CoordDiff)) × List String :=
  if cubes.length == 1 then
    ([], ["Only a single cube so no differences will be found "])
  else
    match cubes with
    | [] => ([], [])
    | c0 :: rest =>
      let common_coords := rest.foldl
        (fun common cube =>
          common.filter (fun coord =>
            cube.coords.contains coord &&
              cubeCoordsMatching cube coord == cubeCoordsMatching c0 coord))
        c0.coords
      (cubes.map (fun cube =>
        (cube.coords.filter (fun coord =>
          !(common_coords.contains coord) && !(ignored_coords.contains coord.name))).map
          (coordDiffEntry cube)), [])

end MetaCompare

/-! ## Shared helpers -/

/-- Insert into a list sorted by `le`. -/
def insertLe {α : Type} (le : α → α → Bool) (x : α) : List α → List α
  | [] => [x]
  | y :: ys => if le x y then x :: y :: ys else y :: insertLe le x ys

/-- Insertion sort by `le`. -/
def sortLe {α : Type} (le : α → α → Bool) : List α → List α
  | [] => []
  | x :: xs => insertLe le x (sortLe le xs)

/-- Map a fallible function over a list, stopping at the first error
(the effect of `List.mapM` over `Except`, written as plain recursion). -/
def mapExcept {α β : Type} (f : α → Except String β) : List α → Except String (List β)
  | [] => Except.ok []
  | x :: xs =>
    match f x, mapExcept f xs with
    | Except.ok y, Except.ok ys => Except.ok (y :: ys)
    | Except.error e, _ => Except.error e
    | _, Except.error e => Except.error e

/-- `np.isclose(a, b)` with numpy's default tolerances
`rtol = 1e-5`, `atol = 1e-8`: `|a - b| <= atol + rtol * |b|`. -/
def npIsClose (a b : ℚ) : Bool := decide (|a - b| ≤ 1/100000000 + (1/100000) * |b|)

/-- `np.min` over a flattened collection; numpy raises on an empty array. -/
def npMin (l : List ℚ) : Except String ℚ :=
  match l with
  | [] => Except.error "zero-size array to reduction operation minimum"
  | x :: xs => Except.ok (xs.foldl min x)

/-- `np.max` over a flattened collection; numpy raises on an empty array. -/
def npMax (l : List ℚ) : Except String ℚ :=
  match l with
  | [] => Except.error "zero-size array to reduction operation maximum"
  | x :: xs => Except.ok (xs.foldl max x)

/-- One vertical level of a cube with a height coordinate: the height point
and the payload values of that level (flattened over the other axes). -/
structure Level where
  height : ℚ
  data : List ℚ
deriving DecidableEq, Repr, Inhabited

namespace CollapseM

/-! ## `collapsed` and `collapse_realizations` -/

/-- A (possibly masked) numpy payload: dtype tag, per-element mask flags and
underlying values (`arr.data` of a masked array). -/
structure NDArr where
  dtype : DType
  mask : List Bool
  vals : List MVal
deriving DecidableEq, Repr, Inhabited

/-- `np.ma.is_masked`: true iff at least one element is masked. -/
def isMasked (a : NDArr) : Bool := a.mask.any id

/-- `arr.astype(d)`: modelled as a dtype-tag change. -/
def astype (a : NDArr) (d : DType) : NDArr := { a with dtype := d }

/-- A coordinate with separately typed points and bounds arrays. -/
structure MCoord where
  name : String
  pointsDtype : DType
  points : List ℚ
  boundsDtype : DType
  bounds : Option (List (ℚ × ℚ))
deriving DecidableEq, Repr, Inhabited

/-- The cube model for the collapse functions: payload, coordinates,
and cell methods (as opaque strings). -/
structure MCube where
  data : NDArr
  coords : List MCoord
  cell_methods : List String
deriving DecidableEq, Repr, Inhabited

/-- The dtype demotion applied by `collapsed` to one collapsed coordinate:
if the coordinate's points are floating they are cast to `FLOAT_DTYPE`,
and its bounds likewise when present. -/
def demoteCoord (collapsed_coords : List String) (c : MCoord) : MCoord :=
  if collapsed_coords.contains c.name && FLOAT_TYPES.contains c.pointsDtype then
    { c with pointsDtype := FLOAT_DTYPE,
             boundsDtype := if c.bounds == none then c.boundsDtype else FLOAT_DTYPE }
  else c

/-- `collapsed(cube, *args, **kwargs)`.  The numeric reduction is delegated
to the iris engine; its output is passed in as `engine_result` (a shallow
embedding of `cube.collapsed(*args, **kwargs)`).  `collapsed_coords` is
`args[0]` normalised to a list.  The function restores the input cube's
cell methods and demotes escalated floating dtypes on the data and on each
collapsed coordinate.  `new_cube.coord(coord)` raises when the named
coordinate is missing from the engine result. -/
def collapsed (cube : MCube) (collapsed_coords : List String) (engine_result : MCube) :
    Except String MCube :=
  if collapsed_coords.all (fun n => engine_result.coords.any (fun c => c.name == n)) then
    let new_cube := { engine_result with cell_methods := cube.cell_methods }
    let new_cube :=
      if FLOAT_TYPES.contains new_cube.data.dtype then
        { new_cube with data := astype new_cube.data FLOAT_DTYPE }
      else new_cube
    Except.ok { new_cube with coords := new_cube.coords.map (demoteCoord collapsed_coords) }
  else Except.error "CoordinateNotFoundError"

/-- The aggregator dictionary keys of `collapse_realizations`. -/
def aggregator_names : List String := ["sum", "mean", "median", "std_dev", "min", "max"]

/-- `returned_cube.data.data[:] = np.nan`: every underlying value is set to
the not-a-number marker; the mask is left in place. -/
def setAllNan (a : NDArr) : NDArr := { a with vals := a.vals.map (fun _ => MVal.nan) }

/-- `cube.remove_coord(name)` (presence is checked by the caller). -/
def removeCoordM (cube : MCube) (n : String) : MCube :=
  { cube with coords := cube.coords.filter (fun c => !(c.name == n)) }

/-- `collapse_realizations(cube, method)`: validates the method, collapses
the realization coordinate (engine output passed as `engine_result`),
strips the realization coordinate, and, when the method is `"std_dev"`,
the input had exactly one realization and the collapsed data is masked,
sets the underlying data values to the not-a-number marker. -/
def collapse_realizations (cube : MCube) (method : String) (engine_result : MCube) :
    Except String MCube :=
  if !(aggregator_names.contains method) then
    Except.error "method must be one of the aggregator names"
  else
    match collapsed cube ["realization"] engine_result with
    | Except.error e => Except.error e
    | Except.ok c1 =>
      if !(c1.coords.any (fun c => c.name == "realization")) then
        Except.error "CoordinateNotFoundError"
      else
        let returned_cube := removeCoordM c1 "realization"
        if method == "std_dev" then
          match cube.coords.find? (fun c => c.name == "realization") with
          | none => Except.error "CoordinateNotFoundError"
          | some rc =>
            if rc.points.length == 1 && isMasked returned_cube.data then
              Except.ok { returned_cube with data := setAllNan returned_cube.data }
            else Except.ok returned_cube
        else Except.ok returned_cube

end CollapseM

namespace HeightOfMax

/-! ## `height_of_maximum` -/

/-- One step of the scan loop: `np.where(cube[height].data == max_cube.data,
cube[height].coord("height").points[0], height_of_max.data)` — wherever the
scanned level's value equals the maximum value, unconditionally overwrite
the accumulated output with the level's height point. -/
def overwriteStep (maxData : List ℚ) (acc : List ℚ) (lvl : Level) : List ℚ :=
  (lvl.data.zip (maxData.zip acc)).map (fun p => if p.1 == p.2.1 then lvl.height else p.2.2)

/-- `height_of_maximum(cube, max_cube, find_lowest)`: the cube is modelled by
its list of vertical levels (index order = the order of the height
coordinate's points), `max_cube` by its payload.  Iterating
`range(len(points))` and indexing `cube[height]` is traversal of the levels
in list order; `reversed(range(...))` is traversal of the reversed list.
The optional rename and the final unit assignment touch only metadata not
modelled here. -/
def height_of_maximum (levels : List Level) (maxData : List ℚ) (find_lowest : Bool) :
    Except String (List ℚ) :=
  if levels.length == 1 then
    Except.error "More than 1 vertical level is required."
  else
    let height_points := if find_lowest then levels else levels.reverse
    Except.ok (height_points.foldl (overwriteStep maxData) maxData)

end HeightOfMax

namespace ExpandB

/-! ## `expand_bounds` -/

/-- A coordinate for bounds expansion, with dtype tags on the points and
bounds arrays. -/
structure BCoord where
  name : String
  pointsDtype : DType
  points : List ℚ
  boundsDtype : DType
  bounds : Option (List (ℚ × ℚ))
deriving DecidableEq, Repr

/-- A cube, as far as `expand_bounds` sees it: its coordinates. -/
abbrev BCube := List BCoord

/-- `cube.coord(name)` as an option (the source raises when absent). -/
def coordOf (cube : BCube) (n : String) : Option BCoord :=
  cube.find? (fun c => c.name == n)

/-- numpy promotion over the dtypes of the arrays being reduced. -/
def promoteAll (ds : List DType) : DType :=
  match ds with
  | [] => DType.float64
  | d :: rest => rest.foldl promoteDType d

/-- All bound values of a list of coordinates, flattened (both the lower and
the upper value of every interval), as `np.min(bounds)` / `np.max(bounds)`
see them. -/
def flatBoundVals (cs : List BCoord) : List ℚ :=
  ((cs.filterMap (fun c => c.bounds)).map (fun l => (l.map (fun p => [p.1, p.2])).flatten)).flatten

/-- Write the new `[new_low_bound, new_top_bound]` interval and the new
single point `new_top_bound` onto the target coordinate, casting to
`FLOAT_DTYPE` when the computed dtype is floating. -/
def setBoundsAndPoint (rc : BCoord) (lo hi : ℚ) (d : DType) : BCoord :=
  let dcast := if FLOAT_TYPES.contains d then FLOAT_DTYPE else d
  { rc with bounds := some [(lo, hi)], boundsDtype := dcast,
            points := [hi], pointsDtype := dcast }

/-- The coordinates named `coord` of each contributing cube
(`[cube.coord(coord) for cube in cubelist]`). -/
def contributorCoords (cubelist : List BCube) (coord : String) : List BCoord :=
  cubelist.filterMap (fun cube => coordOf cube coord)

/-- The body of the `expand_bounds` loop for one coordinate name: checks the
target has a single point, gathers contributor bounds, rejects a mixture of
bounded and unbounded contributors, and computes the new interval either
from the contributors' bounds or (when none are bounded) from their
points. -/
def expand_bounds_coord (result_cube : BCube) (cubelist : List BCube) (coord : String) :
    Except String BCoord :=
  match coordOf result_cube coord with
  | none => Except.error "CoordinateNotFoundError"
  | some rc =>
    if !(rc.points.length == 1) then
      Except.error "the expand bounds function should only be used on a coordinate with a single point."
    else if !(cubelist.all (fun cube => (coordOf cube coord).isSome)) then
      Except.error "CoordinateNotFoundError"
    else
      let ccoords := contributorCoords cubelist coord
      let bounds := ccoords.map (fun c => c.bounds)
      if bounds.any (fun b => b == none) then
        if !(bounds.all (fun b => b == none)) then
          Except.error "cannot expand bounds for a mixture of bounded / unbounded coordinates"
        else
          let pointsAll := (ccoords.map (fun c => c.points)).flatten
          match npMin pointsAll, npMax pointsAll with
          | Except.ok lo, Except.ok hi =>
            Except.ok (setBoundsAndPoint rc lo hi (promoteAll (ccoords.map (fun c => c.pointsDtype))))
          | Except.error e, _ => Except.error e
          | _, Except.error e => Except.error e
      else
        let ballvals := flatBoundVals ccoords
        match npMin ballvals, npMax ballvals with
        | Except.ok lo, Except.ok hi =>
          Except.ok (setBoundsAndPoint rc lo hi (promoteAll (ccoords.map (fun c => c.boundsDtype))))
        | Except.error e, _ => Except.error e
        | _, Except.error e => Except.error e

/-- Replace the named coordinate on the cube (the in-place mutation of
`result_cube.coord(coord)`). -/
def updateCoord (cube : BCube) (c : BCoord) : BCube :=
  cube.map (fun x => if x.name == c.name then c else x)

/-- `expand_bounds(result_cube, cubelist, coord_names)`: the loop over the
requested coordinate names. -/
def expand_bounds (result_cube : BCube) (cubelist : List BCube) :
    List String → Except String BCube
  | [] => Except.ok result_cube
  | n :: rest =>
    match expand_bounds_coord result_cube cubelist n with
    | Except.error e => Except.error e
    | Except.ok c => expand_bounds (updateCoord result_cube c) cubelist rest

end ExpandB

namespace MaxInHeight

/-! ## `maximum_in_height` -/

/-- A cube with a height coordinate: a name and the vertical levels in
height-coordinate order. -/
structure HCube where
  name : String
  levels : List Level
deriving DecidableEq, Repr

/-- The subset of levels selected by the height constraint
`lower <= height <= upper` (the effect of `cube.extract`). -/
def heightSubset (levels : List Level) (lower upper : ℚ) : List Level :=
  levels.filter (fun l => decide (lower ≤ l.height) && decide (l.height ≤ upper))

/-- Pointwise maximum of the payloads of the given levels (head as the
accumulator start): the engine's `collapsed("height", iris.analysis.MAX)`
payload, modelled from the engine contract (statistical aggregation along
a named coordinate). -/
def foldMaxData (x : Level) (xs : List Level) : List ℚ :=
  xs.foldl (fun acc l => acc.zipWith max l.data) x.data

/-- The collapsed height coordinate's single point (iris sets it to the
midpoint of the extremes); irrelevant to the claims, recorded for
completeness. -/
def collapsedPoint (x : Level) (xs : List Level) : ℚ :=
  (x.height + (xs.foldl (fun acc l => max acc l.height) x.height)) / 2

/-- `maximum_in_height(cube, lower_height_bound, upper_height_bound,
new_name)`: missing bounds are replaced by the height coordinate's own
min/max (Python `min`/`max` raise on an empty sequence); the constraint
subset is extracted; an empty subset is an error; more than one remaining
level is collapsed by maximum aggregation, a single level passes through
unchanged; the result is optionally renamed. -/
def maximum_in_height (cube : HCube) (lower_height_bound upper_height_bound : Option ℚ)
    (new_name : Option String) : Except String HCube :=
  match (match lower_height_bound with
         | some l => Except.ok l
         | none => npMin (cube.levels.map (fun l => l.height))),
        (match upper_height_bound with
         | some u => Except.ok u
         | none => npMax (cube.levels.map (fun l => l.height))) with
  | Except.ok lower, Except.ok upper =>
    match heightSubset cube.levels lower upper with
    | [] => Except.error "The provided cube doesn't have any vertical levels between the provided bounds."
    | x :: xs =>
      let max_cube : HCube :=
        if xs.length + 1 > 1 then
          { name := cube.name, levels := [⟨collapsedPoint x xs, foldMaxData x xs⟩] }
        else
          { name := cube.name, levels := x :: xs }
      Except.ok (match new_name with
                 | some n => { max_cube with name := n }
                 | none => max_cube)
  | Except.error e, _ => Except.error e
  | _, Except.error e => Except.error e

end MaxInHeight

namespace MergeM

/-! ## `MergeCubes` (`_equalise_cell_methods`, `_check_time_bounds_ranges`,
`process`) and `strip_var_names` -/

/-- A coordinate of the merge model: name, variable-level name, points and
optional bounds.  A scalar coordinate has one point. -/
structure QCoord where
  name : String
  var_name : Option String
  points : List ℚ
  bounds : Option (List (ℚ × ℚ))
deriving DecidableEq, Repr, Inhabited

/-- The cube model used for merging: identity metadata, attributes, cell
methods, the scalar coordinates, at most one dimension coordinate (the
merge cases the repository's claims exercise never need rank two), and
the flattened payload (rows along the dimension coordinate when one is
present). -/
structure QCube where
  name : String
  var_name : Option String
  attributes : List (String × String)
  cell_methods : List String
  scalar_coords : List QCoord
  dim_coord : Option QCoord
  data : List ℚ
deriving DecidableEq, Repr, Inhabited

/-- `strip_var_names` keeps the variable name of a coordinate only when it
is `"threshold"`. -/
def stripCoordVar (c : QCoord) : QCoord :=
  if c.var_name == some "threshold" then c else { c with var_name := none }

/-- The effect of `strip_var_names` on one cube. -/
def stripCubeVar (cube : QCube) : QCube :=
  { cube with var_name := none,
              scalar_coords := cube.scalar_coords.map stripCoordVar,
              dim_coord := cube.dim_coord.map stripCoordVar }

/-- `strip_var_names(cubes)`: removes `var_name` from every cube and from
all coordinates except the threshold coordinate. -/
def strip_var_names (cubes : List QCube) : List QCube :=
  cubes.map stripCubeVar

/-- Dictionary lookup in an attribute association list. -/
def attrLookup (m : List (String × String)) (k : String) : Option String :=
  (m.find? (fun p => p.1 == k)).map (fun p => p.2)

/-- Modelled from the spec: `iris.util.equalise_attributes` (external
engine primitive, spec step 5) — every attribute whose value is not shared
bit-for-bit by all cubes is deleted from each cube. -/
def equalise_attributes (cubes : List QCube) : List QCube :=
  cubes.map (fun cube =>
    { cube with attributes :=
        cube.attributes.filter (fun p =>
          cubes.all (fun c2 => attrLookup c2.attributes p.1 == some p.2)) })

/-- `MergeCubes._equalise_cell_methods(cubelist)`: intersect the cell
methods across the list (the Python `set` intersection is modelled as a
deduplicating filter that keeps the accumulator's order) and write the
intersection onto every cube. -/
def _equalise_cell_methods (cubelist : List QCube) : List QCube :=
  match cubelist with
  | [] => []
  | c0 :: rest =>
    let cell_methods := rest.foldl
      (fun acc cube => (acc.filter (fun m => cube.cell_methods.contains m)).dedup)
      c0.cell_methods
    cubelist.map (fun cube => { cube with cell_methods := cell_methods })

/-- `cube.coord(name)` over the merge model, as an option. -/
def cubeCoord (cube : QCube) (n : String) : Option QCoord :=
  match cube.dim_coord with
  | some d => if d.name == n then some d else cube.scalar_coords.find? (fun s => s.name == n)
  | none => cube.scalar_coords.find? (fun s => s.name == n)

/-- The body of `_check_time_bounds_ranges` for one coordinate name:
an absent coordinate, absent bounds or a single point are accepted;
otherwise every absolute bound width must be `np.isclose` to the first. -/
def checkOneTimeCoord (name : String) (cube : QCube) : Except String Unit :=
  match cubeCoord cube name with
  | none => Except.ok ()
  | some c =>
    match c.bounds with
    | none => Except.ok ()
    | some bs =>
      if c.points.length == 1 then Except.ok ()
      else
        match bs.map (fun p => |p.2 - p.1|) with
        | [] => Except.error "IndexError: index 0 is out of bounds"
        | r :: rs =>
          if (r :: rs).all (fun x => npIsClose x r) then Except.ok ()
          else Except.error ("Cube with mismatching " ++ name ++ " bounds ranges cannot be blended")

/-- `MergeCubes._check_time_bounds_ranges(cube)`: the loop over the names
`"time"` and `"forecast_period"`. -/
def _check_time_bounds_ranges (cube : QCube) : Except String Unit :=
  match checkOneTimeCoord "time" cube with
  | Except.error e => Except.error e
  | Except.ok _ => checkOneTimeCoord "forecast_period" cube

/-- The names of a cube's scalar coordinates. -/
def scalarNames (c : QCube) : List String := c.scalar_coords.map (fun s => s.name)

/-- The cube's scalar coordinate of the given name. -/
def scalarValue (c : QCube) (n : String) : Option QCoord :=
  c.scalar_coords.find? (fun s => s.name == n)

/-- The scalar-coordinate names whose coordinate is not identical across
all the cubes. -/
def diffScalarNames (cubes : List QCube) (c0 : QCube) : List String :=
  (scalarNames c0).filter (fun n => !(cubes.all (fun c => scalarValue c n == scalarValue c0 n)))

/-- The point value of the cube's scalar coordinate `n` (0 when absent;
only used where presence was established). -/
def scalarPoint (c : QCube) (n : String) : ℚ :=
  (((scalarValue c n).map (fun q => q.points)).getD []).getD 0 0

/-- Modelled from the spec: the engine's `CubeList.merge_cube()` (spec
§4.4 step 8 and the merge-eligibility rule of §3) — cubes identical except
in the value of exactly one scalar coordinate merge into one cube whose
new dimension coordinate holds the values in ascending order; mismatched
identity metadata, attributes, cell methods, coordinate sets or dimension
coordinates raise a merge error, as do duplicate cubes.  Only the
scalar-source case (no pre-existing dimension coordinate) can produce a
merged result in this model; the claims exercise no other case. -/
def merge_cube (cubes : List QCube) : Except String QCube :=
  match cubes with
  | [] => Except.error "can not merge an empty CubeList"
  | [c] => Except.ok c
  | c0 :: _ =>
    if !(cubes.all (fun c => c.dim_coord == c0.dim_coord)) then
      Except.error "failed to merge into a single cube: coordinates in cube.dim_coords differ"
    else if !(cubes.all (fun c =>
        c.name == c0.name && c.var_name == c0.var_name &&
        c.attributes == c0.attributes && c.cell_methods == c0.cell_methods &&
        decide (scalarNames c = scalarNames c0))) then
      Except.error "failed to merge into a single cube: cube metadata differs"
    else
      match diffScalarNames cubes c0 with
      | [] => Except.error "failed to merge into a single cube: duplicate cubes"
      | [n] =>
        if !(c0.dim_coord == none) then
          Except.error "failed to merge into a single cube: rank-2 results are outside this model"
        else if !((cubes.map (fun c => scalarPoint c n)).Nodup) then
          Except.error "failed to merge into a single cube: duplicate coordinate values"
        else
          let sorted := sortLe (fun a b => decide (a.1 ≤ b.1))
            (cubes.map (fun c => (scalarPoint c n, c)))
          let nbounds :=
            if cubes.all (fun c => ((scalarValue c n).map (fun q => q.bounds)).getD none != none)
            then some ((sorted.map (fun p =>
              ((((scalarValue p.2 n).map (fun q => q.bounds)).getD none).getD []))).flatten)
            else none
          let var0 := (((scalarValue c0 n).map (fun q => q.var_name)).getD none)
          Except.ok { c0 with
            scalar_coords := c0.scalar_coords.filter (fun s => !(s.name == n)),
            dim_coord := some ⟨n, var0, sorted.map (fun p => p.1), nbounds⟩,
            data := (sorted.map (fun p => p.2.data)).flatten }
      | _ :: _ :: _ =>
        Except.error "failed to merge into a single cube: multiple new dimensions are outside this model"

/-- Split a flat payload into `k` rows of length `rowLen`. -/
def takeRows : Nat → List ℚ → Nat → List (List ℚ)
  | 0, _, _ => []
  | k + 1, l, rowLen => l.take rowLen :: takeRows k (l.drop rowLen) rowLen

/-- `cube.slices_over("realization")`: one slice per realization point when
the realization coordinate is the dimension coordinate; a single slice (the
cube itself) when it is scalar; an error when absent. -/
def slices_over_realization (cube : QCube) : Except String (List QCube) :=
  match cube.dim_coord with
  | some d =>
    if d.name == "realization" then
      let k := d.points.length
      let rowLen := cube.data.length / k
      Except.ok ((d.points.zip (takeRows k cube.data rowLen)).map (fun p =>
        { cube with dim_coord := none,
                    scalar_coords := cube.scalar_coords ++ [⟨"realization", d.var_name, [p.1], none⟩],
                    data := p.2 }))
    else if cube.scalar_coords.any (fun s => s.name == "realization") then
      Except.ok [cube]
    else Except.error "CoordinateNotFoundError: realization"
  | none =>
    if cube.scalar_coords.any (fun s => s.name == "realization") then
      Except.ok [cube]
    else Except.error "CoordinateNotFoundError: realization"

/-- The input of `MergeCubes.process`: a bare cube or a cube list. -/
inductive CubesIn where
  | single : QCube → CubesIn
  | clist : List QCube → CubesIn
deriving DecidableEq, Repr

/-- `MergeCubes.process(cubes_in, check_time_bounds_ranges,
slice_over_realization, copy)`: a bare cube is returned unchanged; a
singleton list is (optionally) bounds-checked and unwrapped; otherwise the
cubes are (copied —  the identity in this pure model), optionally sliced
over realization, equalised (attributes, variable names, cell methods),
merged by the engine, and the result optionally bounds-checked. -/
def process (cubes_in : CubesIn) (check_time_bounds_ranges : Bool)
    (slice_over_realization : Bool) (copy : Bool) : Except String QCube :=
  match cubes_in with
  | CubesIn.single cube => Except.ok cube
  | CubesIn.clist cl =>
    match cl with
    | [c] =>
      if check_time_bounds_ranges then
        match _check_time_bounds_ranges c with
        | Except.error e => Except.error e
        | Except.ok _ => Except.ok c
      else Except.ok c
    | _ =>
      -- `copy` only controls whether the inputs are deep-copied before the
      -- in-place equalisation; in this pure model both settings coincide.
      let _ := copy
      let slicedE : Except String (List QCube) :=
        if slice_over_realization then
          match mapExcept slices_over_realization cl with
          | Except.error e => Except.error e
          | Except.ok sliced => Except.ok sliced.flatten
        else Except.ok cl
      match slicedE with
      | Except.error e => Except.error e
      | Except.ok cubelist =>
        let cubelist := equalise_attributes cubelist
        let cubelist := strip_var_names cubelist
        let cubelist := _equalise_cell_methods cubelist
        match merge_cube cubelist with
        | Except.error e => Except.error e
        | Except.ok result =>
          if check_time_bounds_ranges then
            match _check_time_bounds_ranges result with
            | Except.error e => Except.error e
            | Except.ok _ => Except.ok result
          else Except.ok result

end MergeM

namespace CopyMeta

/-! ## `CopyMetadata.process` -/

/-- An auxiliary coordinate: its name and points. -/
structure ACoord where
  name : String
  points : List ℚ
deriving DecidableEq, Repr, Inhabited

/-- The cube model for metadata copying: attributes and auxiliary
coordinates, each with its data-dims attachment. -/
structure ACube where
  attributes : List (String × String)
  aux_coords : List (ACoord × List Nat)
deriving DecidableEq, Repr, Inhabited

/-- Overwrite (or append) one attribute. -/
def setAttr (m : List (String × String)) (k v : String) : List (String × String) :=
  if m.any (fun p => p.1 == k) then
    m.map (fun p => if p.1 == k then (k, v) else p)
  else m ++ [(k, v)]

/-- Modelled from the spec: `amend_attributes`
(`improver.metadata.amend`, not under `src/`) — overwrite the named
attributes on the cube with the given values. -/
def amend_attributes (cube : ACube) (new_attributes : List (String × String)) : ACube :=
  { cube with attributes := new_attributes.foldl (fun m p => setAttr m p.1 p.2) cube.attributes }

/-- `{k: template_cube.attributes[k] for k in self.attributes}`: a missing
key raises `KeyError`. -/
def getAttrs (template : ACube) (ks : List String) : Except String (List (String × String)) :=
  mapExcept (fun k =>
    match template.attributes.find? (fun p => p.1 == k) with
    | some p => Except.ok p
    | none => Except.error ("KeyError: " ++ k)) ks

/-- The per-cube body of the `CopyMetadata.process` loop: amend the
attributes from the template, then for each requested auxiliary
coordinate remove any same-named coordinate and attach the template's
coordinate against the template's axis mapping (`template_cube.coord`
raises when absent). -/
def processOne (attributes aux_coord : List String) (template : ACube) (cube : ACube) :
    Except String ACube := do
  let new_attributes ← getAttrs template attributes
  let cube := amend_attributes cube new_attributes
  aux_coord.foldlM (fun cube coord =>
    let cube := { cube with aux_coords := cube.aux_coords.filter (fun p => !(p.1.name == coord)) }
    match template.aux_coords.find? (fun p => p.1.name == coord) with
    | none => Except.error ("CoordinateNotFoundError: " ++ coord)
    | some p => Except.ok { cube with aux_coords := cube.aux_coords ++ [p] }) cube

/-- `CopyMetadata.process(*cubes)`: the inputs (already flattened by
`as_cubelist`) must number at least two; the final cube is popped as the
template; every remaining cube is updated from it; a single updated cube
is returned bare, several as a list. -/
def process (attributes aux_coord : List String) (cubes : List ACube) :
    Except String (ACube ⊕ List ACube) :=
  if cubes.length < 2 then
    Except.error ("At least two cubes are required for this operation, got "
      ++ toString cubes.length)
  else
    let template_cube := (cubes.getLast?).getD default
    let cubes_proc := cubes.dropLast
    match mapExcept (processOne attributes aux_coord template_cube) cubes_proc with
    | Except.error e => Except.error e
    | Except.ok updated =>
      if updated.length > 1 then Except.ok (Sum.inr updated)
      else Except.ok (Sum.inl (updated.getD 0 default))

end CopyMeta

/-! ## Formulations of the claims' vocabulary -/

/-- The minimum of a list of rationals (0 on the empty list; only ever
used on nonempty lists). -/
def minOf : List ℚ → ℚ
  | [] => 0
  | x :: xs => xs.foldl min x

/-- The maximum of a list of rationals (0 on the empty list; only ever
used on nonempty lists). -/
def maxOf : List ℚ → ℚ
  | [] => 0
  | x :: xs => xs.foldl max x

/-- The lower values of all the contributors' bound intervals. -/
def allLowers (cs : List ExpandB.BCoord) : List ℚ :=
  ((cs.filterMap (fun c => c.bounds)).flatten).map (fun p => p.1)

/-- The upper values of all the contributors' bound intervals. -/
def allUppers (cs : List ExpandB.BCoord) : List ℚ :=
  ((cs.filterMap (fun c => c.bounds)).flatten).map (fun p => p.2)

/-- All the contributors' points, flattened. -/
def allPoints (cs : List ExpandB.BCoord) : List ℚ :=
  (cs.map (fun c => c.points)).flatten

/-- The spec's acceptance condition for one bounded time coordinate: the
absolute widths of the bound intervals are all equal, within floating
tolerance, to the first interval's width. -/
def widthsCloseToFirst (bs : List (ℚ × ℚ)) : Prop :=
  match bs.map (fun p => |p.2 - p.1|) with
  | [] => True
  | r :: rs => ∀ x ∈ r :: rs, npIsClose x r = true

/-- Well-formedness of a time-like coordinate as a real iris cube carries
it: when present and bounded, one bound interval per point and at least
one point. -/
def wfTimeCoord (cube : MergeM.QCube) (nm : String) : Bool :=
  match MergeM.cubeCoord cube nm with
  | none => true
  | some c =>
    match c.bounds with
    | none => true
    | some bs => bs.length == c.points.length && !(c.points.isEmpty)

/-- The spec's description of the level subset `maximumInRange` operates
on: the levels whose height points lie within `[lower, upper]` inclusive,
a missing bound imposing no constraint in that direction. -/
def specSubset (levels : List Level) (lb ub : Option ℚ) : List Level :=
  levels.filter (fun l =>
    (match lb with | none => true | some b => decide (b ≤ l.height)) &&
    (match ub with | none => true | some b => decide (l.height ≤ b)))

/-- A cube identical to `base` except that every scalar coordinate named
`n` holds the single point `v`: builds merge-eligible cube families. -/
def MergeM.withScalarPoint (base : MergeM.QCube) (n : String) (v : ℚ) : MergeM.QCube :=
  { base with scalar_coords :=
      base.scalar_coords.map (fun s =>
        if s.name == n then { s with points := [v] } else s) }

namespace NReal

/-! ## `manipulate_n_realizations` (over the merge model, since it calls
`MergeCubes.process`) -/

/-- `cube.coords("realization", dim_coords=True)` as a nonemptiness test:
whether the cube's dimension coordinate is the realization coordinate. -/
def hasRealizationDim (cube : MergeM.QCube) : Bool :=
  match cube.dim_coord with
  | some d => d.name == "realization"
  | none => false

/-- `[c.name() for c in cube.coords(dim_coords=True)]`, for the error
message. -/
def dimCoordNames (cube : MergeM.QCube) : List String :=
  match cube.dim_coord with
  | some d => [d.name]
  | none => []

/-- Modelled from the spec: the engine's
`cube.extract(iris.Constraint(realization=realization))` (external slicing
primitive, spec sec. 6 "slicing by coordinate constraint") — the
realization slice whose point equals `r`, or `None` when no slice
matches. -/
def extractRealization (cube : MergeM.QCube) (r : ℚ) : Option MergeM.QCube :=
  match MergeM.slices_over_realization cube with
  | Except.error _ => none
  | Except.ok slices => slices.find? (fun s => MergeM.scalarPoint s "realization" == r)

/-- The extraction/relabelling loop of `manipulate_n_realizations`: for each
`(realization, index)` pair, extract that realization (a missing member
yields `None`, on which `.coord` raises) and rewrite the extracted slice's
realization coordinate points to the single new identifier `index`
(`raw_forecast_realization.coord("realization").points = index`). -/
def extractRelabel (cube : MergeM.QCube) :
    List (ℚ × ℚ) → Except String (List MergeM.QCube)
  | [] => Except.ok []
  | p :: ps =>
    match extractRealization cube p.1 with
    | none => Except.error "AttributeError: NoneType object has no attribute coord"
    | some raw =>
      match extractRelabel cube ps with
      | Except.error e => Except.error e
      | Except.ok rest => Except.ok (MergeM.withScalarPoint raw "realization" p.2 :: rest)

/-- `manipulate_n_realizations(cube, n_realizations)`: validates the
realization dimension coordinate, returns a copy when the count already
matches, and otherwise recycles members modulo the existing count,
relabels them with ascending identifiers from the first original one, and
merges the relabelled slices back together with
`MergeCubes()(…, slice_over_realization=True)` — the `MergeM.process`
embedding of `MergeCubes.process`. -/
def manipulate_n_realizations (cube : MergeM.QCube) (n_realizations : Nat) :
    Except String MergeM.QCube :=
  if !(hasRealizationDim cube) then
    Except.error ("Input cube does not contain realizations. The following dimension coordinates were found: "
      ++ toString (dimCoordNames cube))
  else
    match MergeM.cubeCoord cube "realization" with
    | none => Except.error "CoordinateNotFoundError"
    | some rc =>
      if rc.points.length == n_realizations then
        Except.ok cube
      else
        let mpoints := rc.points
        if mpoints.length == 0 then
          Except.error "ZeroDivisionError: integer modulo by zero"
        else
          let realization_list := (List.range n_realizations).map
            (fun index => mpoints.getD (index % mpoints.length) 0)
          match realization_list with
          | [] => Except.error "IndexError: list index out of range"
          | r0 :: _ =>
            let new_realization_numbers :=
              (List.range n_realizations).map (fun (i : ℕ) => r0 + (i : ℚ))
            match extractRelabel cube (realization_list.zip new_realization_numbers) with
            | Except.error e => Except.error e
            | Except.ok raw_forecast_realizations_extended =>
              MergeM.process (MergeM.CubesIn.clist raw_forecast_realizations_extended)
                false true true

/-- The uniform cube family produced by the extraction/relabelling loop:
`n` cubes identical except that the `i`-th carries the single scalar
realization point `r0 + i` and the payload `g i`.  A formulation device
for stating what `MergeCubes.process` does to the relabelled slices. -/
def uniFam (bn : String) (bv : Option String) (A : List (String × String))
    (cm : List String) (r0 : ℚ) (g : ℕ → List ℚ) (n : ℕ) : List MergeM.QCube :=
  (List.range n).map (fun (i : ℕ) =>
    (⟨bn, bv, A, cm, [⟨"realization", none, [r0 + (i : ℚ)], none⟩], none, g i⟩ : MergeM.QCube))

end NReal

/-! # Helper lemmas -/

theorem getD_map {α β : Type} [Inhabited α] [Inhabited β] (f : α → β) (l : List α) (i : Nat)
    (h : i < l.length) : (l.map f).getD i default = f (l.getD i default) := by
  rw [List.getD_eq_getElem?_getD, List.getD_eq_getElem?_getD, List.getElem?_map,
      List.getElem?_eq_getElem h]
  rfl

theorem mapExcept_ok_spec {α β : Type} [Inhabited α] [Inhabited β] (f : α → Except String β) :
    ∀ (l : List α) (r : List β), mapExcept f l = Except.ok r →
      r.length = l.length ∧
        ∀ i, i < l.length → f (l.getD i default) = Except.ok (r.getD i default) := by
  intro l
  induction l with
  | nil =>
    intro r h
    simp only [mapExcept] at h
    cases h
    exact ⟨rfl, by intro i hi; simp at hi⟩
  | cons x xs ih =>
    intro r h
    simp only [mapExcept] at h
    cases hfx : f x with
    | error e => simp [hfx] at h
    | ok y =>
      cases hxs : mapExcept f xs with
      | error e => simp [hfx, hxs] at h
      | ok ys =>
        simp only [hfx, hxs, Except.ok.injEq] at h
        subst h
        obtain ⟨hl, hel⟩ := ih ys hxs
        refine ⟨by simp [hl], ?_⟩
        intro i hi
        cases i with
        | zero => simpa using hfx
        | succ j =>
          simp only [List.getD_cons_succ]
          exact hel j (by simpa using hi)

/-! # Claim theorems -/

/-- C1 counterexample: called with exactly one array, `compare_attributes`
and `compare_coords` return the empty list `[]` (zero mappings), not the
one-element list `[{}]` of one empty mapping that the claim states. -/
theorem C1_counterexample :
    (MetaCompare.compare_attributes [[("source", "uk")]] none)
      = ([], ["Only a single cube so no differences will be found "]) ∧
    (MetaCompare.compare_coords [⟨[⟨"time", [0], none⟩], [⟨"time", [0], none⟩], []⟩] [])
      = ([], ["Only a single cube so no differences will be found "]) ∧
    ([] : List MetaCompare.AttrMap) ≠ [[]] ∧
    ([] : List (List (String × MetaCompare.CoordDiff))) ≠ [[]] :=
  ⟨rfl, rfl, by simp, by simp⟩

/-- C1 (amended): when `compare_attributes` or `compare_coords` is called
with a list containing exactly one array, it emits a non-fatal diagnostic
and returns the empty list `[]` — zero per-array mappings, not one empty
mapping per input array. -/
theorem C1_single_cube (cubes : List MetaCompare.AttrMap) (f : Option String)
    (ccubes : List MetaCompare.CmpCube) (ign : List String)
    (h1 : cubes.length = 1) (h2 : ccubes.length = 1) :
    MetaCompare.compare_attributes cubes f
      = ([], ["Only a single cube so no differences will be found "]) ∧
    MetaCompare.compare_coords ccubes ign
      = ([], ["Only a single cube so no differences will be found "]) := by
  constructor
  · unfold MetaCompare.compare_attributes
    simp [h1]
  · unfold MetaCompare.compare_coords
    simp [h2]

theorem C1_single_cube_witness :
    MetaCompare.compare_attributes [[("source", "uk")]] none
      = ([], ["Only a single cube so no differences will be found "]) ∧
    MetaCompare.compare_coords [⟨[⟨"time", [0], none⟩], [⟨"time", [0], none⟩], []⟩] []
      = ([], ["Only a single cube so no differences will be found "]) :=
  C1_single_cube [[("source", "uk")]] none
    [⟨[⟨"time", [0], none⟩], [⟨"time", [0], none⟩], []⟩] [] rfl rfl

theorem collapsed_ok_elim (cube er r : CollapseM.MCube) (ns : List String)
    (h : CollapseM.collapsed cube ns er = Except.ok r) :
    r = { data := if FLOAT_TYPES.contains er.data.dtype then
                    CollapseM.astype er.data FLOAT_DTYPE
                  else er.data,
          coords := er.coords.map (CollapseM.demoteCoord ns),
          cell_methods := cube.cell_methods } := by
  unfold CollapseM.collapsed at h
  split at h
  · cases h
    split
    · next hf => simp [hf]
    · next hf => simp [hf]
  · cases h

/-- C8: `collapsed` returns a cube carrying exactly the input cube's
original cell methods (whatever cell methods the engine generated are
discarded), and when the engine's result has a floating payload or
floating points/bounds on a collapsed coordinate, they are cast back to
the declared floating precision `FLOAT_DTYPE`; payload values, masks,
points and bounds are otherwise untouched. -/
theorem C8_collapsed_provenance_and_precision
    (cube engine_result r : CollapseM.MCube) (collapsed_coords : List String)
    (hok : CollapseM.collapsed cube collapsed_coords engine_result = Except.ok r) :
    r.cell_methods = cube.cell_methods ∧
    r.data.vals = engine_result.data.vals ∧
    r.data.mask = engine_result.data.mask ∧
    (FLOAT_TYPES.contains engine_result.data.dtype = true → r.data.dtype = FLOAT_DTYPE) ∧
    (FLOAT_TYPES.contains engine_result.data.dtype = false →
      r.data.dtype = engine_result.data.dtype) ∧
    r.coords.length = engine_result.coords.length ∧
    (∀ i, i < engine_result.coords.length →
      (r.coords.getD i default).name = (engine_result.coords.getD i default).name ∧
      (r.coords.getD i default).points = (engine_result.coords.getD i default).points ∧
      (r.coords.getD i default).bounds = (engine_result.coords.getD i default).bounds ∧
      (collapsed_coords.contains (engine_result.coords.getD i default).name = true →
       FLOAT_TYPES.contains (engine_result.coords.getD i default).pointsDtype = true →
        (r.coords.getD i default).pointsDtype = FLOAT_DTYPE ∧
        ((engine_result.coords.getD i default).bounds ≠ none →
          (r.coords.getD i default).boundsDtype = FLOAT_DTYPE))) := by
  have hr := collapsed_ok_elim cube engine_result r collapsed_coords hok
  subst hr
  refine ⟨rfl, ?_, ?_, ?_, ?_, by simp, ?_⟩
  · split <;> simp [CollapseM.astype]
  · split <;> simp [CollapseM.astype]
  · intro hf
    have hm : engine_result.data.dtype ∈ FLOAT_TYPES := by simpa using hf
    simp [hm, CollapseM.astype]
  · intro hf
    have hm : engine_result.data.dtype ∉ FLOAT_TYPES := by simpa using hf
    simp [hm]
  · intro i hi
    have hmap : ((engine_result.coords.map (CollapseM.demoteCoord collapsed_coords)).getD i default)
        = CollapseM.demoteCoord collapsed_coords (engine_result.coords.getD i default) :=
      getD_map _ _ _ hi
    simp only [hmap]
    unfold CollapseM.demoteCoord
    split
    · next h1 =>
      refine ⟨rfl, rfl, rfl, fun _ _ => ⟨rfl, fun hb => ?_⟩⟩
      cases hcb : (engine_result.coords.getD i default).bounds with
      | none => exact absurd hcb hb
      | some bs => simp [hcb]
    · next h1 =>
      refine ⟨rfl, rfl, rfl, fun ha hpf => ?_⟩
      exact absurd (by rw [ha, hpf]; rfl) h1

theorem C8_collapsed_witness :
    ∃ r, CollapseM.collapsed
      ⟨⟨DType.float32, [false], [MVal.num 3]⟩,
       [⟨"realization", DType.float64, [1], DType.float64, some [(0, 2)]⟩], ["orig"]⟩
      ["realization"]
      ⟨⟨DType.float64, [false], [MVal.num 3]⟩,
       [⟨"realization", DType.float64, [1], DType.float64, some [(0, 2)]⟩], ["engine"]⟩
      = Except.ok r ∧ r.cell_methods = ["orig"] ∧ r.data.dtype = FLOAT_DTYPE := by
  refine ⟨_, rfl, ?_, ?_⟩
  · have := C8_collapsed_provenance_and_precision
      ⟨⟨DType.float32, [false], [MVal.num 3]⟩,
       [⟨"realization", DType.float64, [1], DType.float64, some [(0, 2)]⟩], ["orig"]⟩
      ⟨⟨DType.float64, [false], [MVal.num 3]⟩,
       [⟨"realization", DType.float64, [1], DType.float64, some [(0, 2)]⟩], ["engine"]⟩
      _ ["realization"] rfl
    exact this.1
  · have := C8_collapsed_provenance_and_precision
      ⟨⟨DType.float32, [false], [MVal.num 3]⟩,
       [⟨"realization", DType.float64, [1], DType.float64, some [(0, 2)]⟩], ["orig"]⟩
      ⟨⟨DType.float64, [false], [MVal.num 3]⟩,
       [⟨"realization", DType.float64, [1], DType.float64, some [(0, 2)]⟩], ["engine"]⟩
      _ ["realization"] rfl
    exact this.2.2.2.1 (by decide)

/-- C10: `CopyMetadata.process` fails with a hard error whenever fewer than
two cubes are supplied in total; when it succeeds, the template (the final
cube supplied) is not part of the returned value — the result consists
exactly of the processed versions of the other cubes — and the return
shape depends on cardinality: a single bare cube when exactly one source
cube was supplied (two cubes in total), a sequence when more than one. -/
theorem C10_copy_metadata_shape (attributes aux_coord : List String)
    (cubes : List CopyMeta.ACube) :
    (cubes.length < 2 →
      CopyMeta.process attributes aux_coord cubes =
        Except.error ("At least two cubes are required for this operation, got "
          ++ toString cubes.length)) ∧
    (∀ r, CopyMeta.process attributes aux_coord cubes = Except.ok r →
      2 ≤ cubes.length ∧
      ∃ updated,
        mapExcept (CopyMeta.processOne attributes aux_coord ((cubes.getLast?).getD default))
            cubes.dropLast = Except.ok updated ∧
        updated.length = cubes.length - 1 ∧
        (∀ i, i < cubes.length - 1 →
          CopyMeta.processOne attributes aux_coord ((cubes.getLast?).getD default)
              (cubes.dropLast.getD i default)
            = Except.ok (updated.getD i default)) ∧
        ((cubes.length = 2 ∧ r = Sum.inl (updated.getD 0 default)) ∨
         (2 < cubes.length ∧ r = Sum.inr updated))) := by
  constructor
  · intro h
    unfold CopyMeta.process
    rw [if_pos h]
  · intro r hr
    unfold CopyMeta.process at hr
    by_cases h2 : cubes.length < 2
    · rw [if_pos h2] at hr; cases hr
    · rw [if_neg h2] at hr
      push_neg at h2
      refine ⟨h2, ?_⟩
      cases hm : mapExcept (CopyMeta.processOne attributes aux_coord
          ((cubes.getLast?).getD default)) cubes.dropLast with
      | error e => simp only [hm] at hr; cases hr
      | ok updated =>
        simp only [hm] at hr
        obtain ⟨hlen, hel⟩ := mapExcept_ok_spec _ _ _ hm
        have hdl : cubes.dropLast.length = cubes.length - 1 := List.length_dropLast _
        have hlen2 : updated.length = cubes.length - 1 := by rw [hlen, hdl]
        refine ⟨updated, rfl, hlen2, ?_, ?_⟩
        · intro i hi
          exact hel i (by omega)
        · by_cases hu : updated.length > 1
          · rw [if_pos hu] at hr
            cases hr
            right
            exact ⟨by omega, rfl⟩
          · rw [if_neg hu] at hr
            cases hr
            exact Or.inl ⟨by omega, rfl⟩

theorem C10_copy_metadata_shape_witness :
    CopyMeta.process ["a"] [] [CopyMeta.ACube.mk [("a", "x")] []] =
      Except.error "At least two cubes are required for this operation, got 1" ∧
    2 ≤ ([CopyMeta.ACube.mk [] [], CopyMeta.ACube.mk [] [], CopyMeta.ACube.mk [] []] :
          List CopyMeta.ACube).length := by
  constructor
  · exact (C10_copy_metadata_shape ["a"] [] [CopyMeta.ACube.mk [("a", "x")] []]).1 (by decide)
  · exact ((C10_copy_metadata_shape [] []
      [CopyMeta.ACube.mk [] [], CopyMeta.ACube.mk [] [], CopyMeta.ACube.mk [] []]).2
      (Sum.inr [CopyMeta.ACube.mk [] [], CopyMeta.ACube.mk [] []]) rfl).1

/-- C2 counterexample: with a single-member realization coordinate and the
`"std_dev"` method, when the engine's collapsed result is NOT masked the
returned values are left exactly as the engine produced them — here the
ordinary number 5, not the not-a-number marker — so the claim's
"regardless of whether the underlying engine reports the result as
masked" is false on the code (`np.ma.is_masked` guards the NaN fill). -/
theorem C2_counterexample :
    CollapseM.collapse_realizations
      ⟨⟨DType.float32, [false], [MVal.num 5]⟩,
       [⟨"realization", DType.int64, [1], DType.int64, none⟩], []⟩
      "std_dev"
      ⟨⟨DType.float32, [false], [MVal.num 5]⟩,
       [⟨"realization", DType.int64, [1], DType.int64, none⟩], []⟩
      = Except.ok ⟨⟨DType.float32, [false], [MVal.num 5]⟩, [], []⟩ ∧
    MVal.num 5 ≠ MVal.nan :=
  ⟨rfl, by simp⟩

/-- C2 (amended): for every cube whose realization coordinate has exactly
one point, `collapse_realizations` with method `"std_dev"` sets every
underlying data value of the result to the explicit not-a-number marker
whenever the engine reports the collapsed result as masked (which,
per the code's comment, iris always does for this degenerate statistic);
an unmasked engine result is passed through unchanged. -/
theorem C2_stddev_single_member (cube engine_result r : CollapseM.MCube)
    (rc : CollapseM.MCoord)
    (hrc : cube.coords.find? (fun c => c.name == "realization") = some rc)
    (hone : rc.points.length = 1)
    (hmask : CollapseM.isMasked engine_result.data = true)
    (hok : CollapseM.collapse_realizations cube "std_dev" engine_result = Except.ok r) :
    ∀ v ∈ r.data.vals, v = MVal.nan := by
  unfold CollapseM.collapse_realizations at hok
  rw [if_neg (by decide)] at hok
  cases hc : CollapseM.collapsed cube ["realization"] engine_result with
  | error e => rw [hc] at hok; cases hok
  | ok c1 =>
    rw [hc] at hok
    have hc1 := collapsed_ok_elim cube engine_result c1 ["realization"] hc
    subst hc1
    dsimp only at hok
    by_cases hany : ((engine_result.coords.map
        (CollapseM.demoteCoord ["realization"])).any (fun c => c.name == "realization")) = true
    · rw [if_neg (by simp [hany])] at hok
      rw [if_pos (by rfl)] at hok
      rw [hrc] at hok
      dsimp only at hok
      have hm2 : CollapseM.isMasked (CollapseM.removeCoordM
          { data := if FLOAT_TYPES.contains engine_result.data.dtype = true then
                      CollapseM.astype engine_result.data FLOAT_DTYPE
                    else engine_result.data,
            coords := engine_result.coords.map (CollapseM.demoteCoord ["realization"]),
            cell_methods := cube.cell_methods } "realization").data = true := by
        unfold CollapseM.removeCoordM CollapseM.isMasked CollapseM.astype
        split <;> exact hmask
      rw [if_pos (by rw [hone]; simpa using hm2)] at hok
      cases hok
      intro v hv
      simp only [CollapseM.setAllNan, List.mem_map] at hv
      obtain ⟨a, _, h⟩ := hv
      exact h.symm
    · rw [if_pos (by simpa using hany)] at hok
      cases hok

theorem C2_stddev_single_member_witness :
    (CollapseM.MCube.mk ⟨DType.float32, [true], [MVal.nan]⟩ [] []).data.vals.headD (MVal.num 0)
      = MVal.nan :=
  C2_stddev_single_member
    ⟨⟨DType.float32, [true], [MVal.num 5]⟩,
     [⟨"realization", DType.int64, [1], DType.int64, none⟩], []⟩
    ⟨⟨DType.float32, [true], [MVal.num 5]⟩,
     [⟨"realization", DType.int64, [1], DType.int64, none⟩], []⟩
    ⟨⟨DType.float32, [true], [MVal.nan]⟩, [], []⟩
    ⟨"realization", DType.int64, [1], DType.int64, none⟩
    rfl rfl rfl rfl
    ((CollapseM.MCube.mk ⟨DType.float32, [true], [MVal.nan]⟩ [] []).data.vals.headD (MVal.num 0))
    (by decide)

theorem checkOneTimeCoord_ok_iff (name : String) (cube : MergeM.QCube)
    (hwf : wfTimeCoord cube name = true) :
    MergeM.checkOneTimeCoord name cube = Except.ok () ↔
      ∀ c, MergeM.cubeCoord cube name = some c →
        ∀ bs, c.bounds = some bs → 1 < c.points.length → widthsCloseToFirst bs := by
  unfold wfTimeCoord at hwf
  unfold MergeM.checkOneTimeCoord
  cases hc : MergeM.cubeCoord cube name with
  | none => simp [hc]
  | some c =>
    rw [hc] at hwf
    dsimp only at hwf
    simp only [hc]
    cases hb : c.bounds with
    | none => simp [hb]
    | some bs =>
      rw [hb] at hwf
      dsimp only at hwf
      simp only [hb]
      by_cases h1 : c.points.length == 1
      · have h1' : c.points.length = 1 := by simpa using h1
        simp [h1, h1']
      · have hlen : bs.length = c.points.length := by
          have := (Bool.and_eq_true _ _).mp hwf
          simpa using this.1
        have hnil : c.points ≠ [] := by
          have := (Bool.and_eq_true _ _).mp hwf
          simpa using this.2
        have h2 : 1 < c.points.length := by
          have h0 : c.points.length ≠ 0 := by simpa using hnil
          have h1n : c.points.length ≠ 1 := by simpa using h1
          omega
        have hbsne : bs ≠ [] := by
          intro hx
          rw [hx] at hlen
          simp at hlen
          omega
        cases hbs : bs.map (fun p => |p.2 - p.1|) with
        | nil =>
          exfalso
          have : bs = [] := by
            cases bs with
            | nil => rfl
            | cons a l => simp at hbs
          exact hbsne this
        | cons rr rs =>
          simp only [h1, Bool.false_eq_true, if_false, hbs]
          constructor
          · intro hOk c2 hcc bs2 hbs2 _
            rw [Option.some.injEq] at hcc
            subst hcc
            rw [hb, Option.some.injEq] at hbs2
            subst hbs2
            unfold widthsCloseToFirst
            rw [hbs]
            by_cases hall : ((rr :: rs).all (fun x => npIsClose x rr)) = true
            · simpa [List.all_eq_true] using hall
            · rw [if_neg hall] at hOk
              cases hOk
          · intro h
            have := h c rfl bs hb h2
            unfold widthsCloseToFirst at this
            rw [hbs] at this
            rw [if_pos (by simpa [List.all_eq_true] using this)]

/-- C5: `_check_time_bounds_ranges` fails if and only if one of the
coordinates named `"time"` or `"forecast_period"` that is present with
bounds and more than one point has bound-interval absolute widths that are
not all equal (within `np.isclose` floating tolerance) to the first
interval's width; coordinates that are absent, unbounded, or single-point
are accepted.  Well-formedness: a present bounded coordinate has one bound
interval per point and at least one point, as every real iris coordinate
does. -/
theorem C5_check_time_bounds_iff (cube : MergeM.QCube)
    (hwf : ∀ nm ∈ ["time", "forecast_period"], wfTimeCoord cube nm = true) :
    MergeM._check_time_bounds_ranges cube = Except.ok () ↔
      ∀ nm ∈ ["time", "forecast_period"], ∀ c, MergeM.cubeCoord cube nm = some c →
        ∀ bs, c.bounds = some bs → 1 < c.points.length → widthsCloseToFirst bs := by
  have ht := checkOneTimeCoord_ok_iff "time" cube (hwf _ (by simp))
  have hfp := checkOneTimeCoord_ok_iff "forecast_period" cube (hwf _ (by simp))
  unfold MergeM._check_time_bounds_ranges
  constructor
  · intro h nm hnm
    cases hct : MergeM.checkOneTimeCoord "time" cube with
    | error e => rw [hct] at h; cases h
    | ok u =>
      cases u
      rw [hct] at h
      simp only [List.mem_cons, List.not_mem_nil, or_false] at hnm
      rcases hnm with rfl | rfl
      · exact ht.mp hct
      · exact hfp.mp h
  · intro h
    have h1 : MergeM.checkOneTimeCoord "time" cube = Except.ok () :=
      ht.mpr (fun c hc bs hbs hl => h "time" (by simp) c hc bs hbs hl)
    have h2 : MergeM.checkOneTimeCoord "forecast_period" cube = Except.ok () :=
      hfp.mpr (fun c hc bs hbs hl => h "forecast_period" (by simp) c hc bs hbs hl)
    rw [h1]
    exact h2

theorem C5_check_time_bounds_iff_witness :
    (MergeM._check_time_bounds_ranges
        ⟨"acc", none, [], [], [],
         some ⟨"time", none, [1, 2, 3], some [(0, 1), (1, 2), (2, 3)]⟩, [1, 2, 3]⟩
      = Except.ok () ↔
      ∀ nm ∈ ["time", "forecast_period"], ∀ c,
        MergeM.cubeCoord
          ⟨"acc", none, [], [], [],
           some ⟨"time", none, [1, 2, 3], some [(0, 1), (1, 2), (2, 3)]⟩, [1, 2, 3]⟩ nm = some c →
        ∀ bs, c.bounds = some bs → 1 < c.points.length → widthsCloseToFirst bs) :=
  C5_check_time_bounds_iff _ (by decide)

theorem overwriteStep_length (m acc : List ℚ) (lvl : Level)
    (hd : lvl.data.length = m.length) (ha : acc.length = m.length) :
    (HeightOfMax.overwriteStep m acc lvl).length = m.length := by
  simp [HeightOfMax.overwriteStep, hd, ha]

theorem overwriteStep_getD (m acc : List ℚ) (lvl : Level) (j : Nat)
    (hd : lvl.data.length = m.length) (ha : acc.length = m.length) (hj : j < m.length) :
    (HeightOfMax.overwriteStep m acc lvl).getD j 0
      = if lvl.data.getD j 0 == m.getD j 0 then lvl.height else acc.getD j 0 := by
  have hd' : j < lvl.data.length := by omega
  have ha' : j < acc.length := by omega
  unfold HeightOfMax.overwriteStep
  rw [List.getD_eq_getElem?_getD, List.getElem?_map, List.zip_eq_zipWith, List.zip_eq_zipWith,
      List.getElem?_zipWith, List.getElem?_zipWith,
      List.getElem?_eq_getElem hd', List.getElem?_eq_getElem hj, List.getElem?_eq_getElem ha',
      List.getD_eq_getElem?_getD, List.getD_eq_getElem?_getD, List.getD_eq_getElem?_getD,
      List.getElem?_eq_getElem hd', List.getElem?_eq_getElem hj, List.getElem?_eq_getElem ha']
  rfl

theorem foldl_overwrite_length (m : List ℚ) :
    ∀ (ls : List Level) (acc : List ℚ), (∀ l ∈ ls, l.data.length = m.length) →
      acc.length = m.length →
      (ls.foldl (HeightOfMax.overwriteStep m) acc).length = m.length := by
  intro ls
  induction ls with
  | nil => intro acc _ ha; simpa using ha
  | cons x xs ih =>
    intro acc hl ha
    simp only [List.foldl_cons]
    exact ih _ (fun l hm => hl l (List.mem_cons_of_mem _ hm))
      (overwriteStep_length m acc x (hl x (List.mem_cons_self _ _)) ha)

theorem foldl_overwrite_getD (m : List ℚ) (j : Nat) (hj : j < m.length) :
    ∀ (ls : List Level) (acc : List ℚ), (∀ l ∈ ls, l.data.length = m.length) →
      acc.length = m.length →
      (ls.foldl (HeightOfMax.overwriteStep m) acc).getD j 0
        = ((ls.reverse.find? (fun lvl => lvl.data.getD j 0 == m.getD j 0)).map
            (fun l => l.height)).getD (acc.getD j 0) := by
  intro ls
  induction ls with
  | nil => intro acc _ _; rfl
  | cons x xs ih =>
    intro acc hl ha
    simp only [List.foldl_cons, List.reverse_cons, List.find?_append]
    rw [ih _ (fun l hm => hl l (List.mem_cons_of_mem _ hm))
        (overwriteStep_length m acc x (hl x (List.mem_cons_self _ _)) ha)]
    cases hf : xs.reverse.find? (fun lvl => lvl.data.getD j 0 == m.getD j 0) with
    | some y => simp [hf]
    | none =>
      simp only [hf, Option.none_or]
      rw [overwriteStep_getD m acc x j (hl x (List.mem_cons_self _ _)) ha hj]
      cases hpx : (x.data.getD j 0 == m.getD j 0) with
      | true =>
        rw [@List.find?_cons_of_pos _ (fun lvl => lvl.data.getD j 0 == m.getD j 0) x [] hpx]
        simp [hpx]
      | false =>
        rw [@List.find?_cons_of_neg _ (fun lvl => lvl.data.getD j 0 == m.getD j 0) x []
            (by simp only [hpx]; simp), List.find?_nil]
        simp [hpx]

theorem find?_reverse_maximal {α : Type} (R : α → α → Prop) (p : α → Bool) :
    ∀ (l : List α), l.Pairwise R → ∀ y, l.reverse.find? p = some y →
      ∀ x ∈ l, p x = true → (x = y ∨ R x y) := by
  intro l
  induction l with
  | nil => intro _ y hy; simp at hy
  | cons a as ih =>
    intro hp y hy x hx hpx
    rw [List.pairwise_cons] at hp
    rw [List.reverse_cons, List.find?_append] at hy
    cases hf : as.reverse.find? p with
    | some z =>
      rw [hf] at hy
      simp only [Option.or_some, Option.some.injEq] at hy
      subst hy
      rcases List.mem_cons.mp hx with hx2 | hx2
      · subst hx2
        right
        exact hp.1 _ (List.mem_reverse.mp (List.mem_of_find?_eq_some hf))
      · exact ih hp.2 _ hf x hx2 hpx
    | none =>
      rw [hf] at hy
      simp only [Option.none_or] at hy
      rcases List.mem_cons.mp hx with hx2 | hx2
      · subst hx2
        rw [@List.find?_cons_of_pos _ p x [] hpx] at hy
        injection hy with h2
        exact Or.inl h2
      · exact absurd hpx (by simpa using List.find?_eq_none.mp hf x (List.mem_reverse.mpr hx2))

/-- C3: `height_of_maximum` fails when there is exactly one vertical level;
otherwise, with `find_lowest = true` it scans the levels in ascending
order, at every scanned level unconditionally overwriting the output
wherever that level's value equals the maximum value, so the last scanned
matching level wins: the output cell holds the height of the
greatest-index matching level and, when the height points ascend, that is
the highest matching level (each matching level's height is a lower bound
on the output).  With `find_lowest = false` the scan is in descending
order, so the first (lowest) matching level wins. -/
theorem C3_height_of_maximum_last_match (levels : List Level) (maxData : List ℚ)
    (hlen : ∀ lvl ∈ levels, lvl.data.length = maxData.length) :
    (levels.length = 1 →
      HeightOfMax.height_of_maximum levels maxData true
        = Except.error "More than 1 vertical level is required.") ∧
    (levels.length ≠ 1 →
      ∃ out, HeightOfMax.height_of_maximum levels maxData true = Except.ok out ∧
        (∀ j, j < maxData.length →
          out.getD j 0 =
            ((levels.reverse.find? (fun lvl => lvl.data.getD j 0 == maxData.getD j 0)).map
              (fun l => l.height)).getD (maxData.getD j 0)) ∧
        (levels.Pairwise (fun a b => a.height < b.height) →
          ∀ j, j < maxData.length → ∀ lvl ∈ levels,
            lvl.data.getD j 0 = maxData.getD j 0 → lvl.height ≤ out.getD j 0)) ∧
    (levels.length ≠ 1 →
      ∃ out, HeightOfMax.height_of_maximum levels maxData false = Except.ok out ∧
        (∀ j, j < maxData.length →
          out.getD j 0 =
            ((levels.find? (fun lvl => lvl.data.getD j 0 == maxData.getD j 0)).map
              (fun l => l.height)).getD (maxData.getD j 0))) := by
  refine ⟨?_, ?_, ?_⟩
  · intro h1
    unfold HeightOfMax.height_of_maximum
    rw [if_pos (by simpa using h1)]
  · intro h1
    refine ⟨levels.foldl (HeightOfMax.overwriteStep maxData) maxData, ?_, ?_, ?_⟩
    · unfold HeightOfMax.height_of_maximum
      rw [if_neg (by simpa using h1)]
      rfl
    · intro j hj
      exact foldl_overwrite_getD maxData j hj levels maxData hlen rfl
    · intro hpair j hj lvl hmem heq
      have hout := foldl_overwrite_getD maxData j hj levels maxData hlen rfl
      cases hfind : levels.reverse.find?
          (fun lvl => lvl.data.getD j 0 == maxData.getD j 0) with
      | none =>
        exfalso
        have h2 := List.find?_eq_none.mp hfind lvl (List.mem_reverse.mpr hmem)
        exact h2 (by simpa using heq)
      | some y =>
        rw [hfind] at hout
        simp only [Option.map_some', Option.getD_some] at hout
        rw [hout]
        rcases find?_reverse_maximal (fun a b => a.height < b.height) _ levels hpair y hfind
            lvl hmem (by simpa using heq) with h | h
        · rw [h]
        · exact le_of_lt h
  · intro h1
    refine ⟨levels.reverse.foldl (HeightOfMax.overwriteStep maxData) maxData, ?_, ?_⟩
    · unfold HeightOfMax.height_of_maximum
      rw [if_neg (by simpa using h1)]
      rfl
    · intro j hj
      have := foldl_overwrite_getD maxData j hj levels.reverse maxData
        (fun l hm => hlen l (List.mem_reverse.mp hm)) rfl
      rw [List.reverse_reverse] at this
      exact this

theorem C3_height_of_maximum_witness :
    ∃ out, HeightOfMax.height_of_maximum
        [⟨10, [5, 1]⟩, ⟨20, [5, 2]⟩, ⟨30, [4, 2]⟩] [5, 2] true = Except.ok out ∧
      (∀ j, j < ([5, 2] : List ℚ).length →
        out.getD j 0 =
          ((([⟨10, [5, 1]⟩, ⟨20, [5, 2]⟩, ⟨30, [4, 2]⟩] : List Level).reverse.find?
              (fun lvl => lvl.data.getD j 0 == ([5, 2] : List ℚ).getD j 0)).map
            (fun l => l.height)).getD (([5, 2] : List ℚ).getD j 0)) ∧
      (([⟨10, [5, 1]⟩, ⟨20, [5, 2]⟩, ⟨30, [4, 2]⟩] : List Level).Pairwise
          (fun a b => a.height < b.height) →
        ∀ j, j < ([5, 2] : List ℚ).length →
          ∀ lvl ∈ ([⟨10, [5, 1]⟩, ⟨20, [5, 2]⟩, ⟨30, [4, 2]⟩] : List Level),
            lvl.data.getD j 0 = ([5, 2] : List ℚ).getD j 0 →
              lvl.height ≤ out.getD j 0) :=
  (C3_height_of_maximum_last_match [⟨10, [5, 1]⟩, ⟨20, [5, 2]⟩, ⟨30, [4, 2]⟩] [5, 2]
    (by decide)).2.1 (by decide)

theorem npMin_ok (l : List ℚ) (h : l ≠ []) : npMin l = Except.ok (minOf l) := by
  cases l with
  | nil => exact absurd rfl h
  | cons x xs => rfl

theorem npMax_ok (l : List ℚ) (h : l ≠ []) : npMax l = Except.ok (maxOf l) := by
  cases l with
  | nil => exact absurd rfl h
  | cons x xs => rfl

theorem foldl_min_le_init : ∀ (xs : List ℚ) (x : ℚ), xs.foldl min x ≤ x := by
  intro xs
  induction xs with
  | nil => intro x; exact le_refl x
  | cons a l ih =>
    intro x
    simp only [List.foldl_cons]
    exact le_trans (ih (min x a)) (min_le_left x a)

theorem foldl_min_le_mem : ∀ (xs : List ℚ) (x y : ℚ), y ∈ xs → xs.foldl min x ≤ y := by
  intro xs
  induction xs with
  | nil => intro x y hy; simp at hy
  | cons a l ih =>
    intro x y hy
    simp only [List.foldl_cons]
    rcases List.mem_cons.mp hy with rfl | hy2
    · exact le_trans (foldl_min_le_init l (min x y)) (min_le_right x y)
    · exact ih (min x a) y hy2

theorem minOf_le (l : List ℚ) : ∀ y ∈ l, minOf l ≤ y := by
  cases l with
  | nil => intro y hy; simp at hy
  | cons x xs =>
    intro y hy
    rcases List.mem_cons.mp hy with rfl | hy2
    · exact foldl_min_le_init xs y
    · exact foldl_min_le_mem xs x y hy2

theorem foldl_min_mem : ∀ (xs : List ℚ) (x : ℚ), xs.foldl min x ∈ x :: xs := by
  intro xs
  induction xs with
  | nil => intro x; simp
  | cons a l ih =>
    intro x
    simp only [List.foldl_cons]
    have h := ih (min x a)
    rcases List.mem_cons.mp h with h2 | h2
    · rcases min_choice x a with hc | hc
      · rw [h2, hc]; simp
      · rw [h2, hc]; simp
    · exact List.mem_cons_of_mem _ (List.mem_cons_of_mem _ h2)

theorem minOf_mem (l : List ℚ) (h : l ≠ []) : minOf l ∈ l := by
  cases l with
  | nil => exact absurd rfl h
  | cons x xs => exact foldl_min_mem xs x

theorem foldl_max_ge_init : ∀ (xs : List ℚ) (x : ℚ), x ≤ xs.foldl max x := by
  intro xs
  induction xs with
  | nil => intro x; exact le_refl x
  | cons a l ih =>
    intro x
    simp only [List.foldl_cons]
    exact le_trans (le_max_left x a) (ih (max x a))

theorem foldl_max_ge_mem : ∀ (xs : List ℚ) (x y : ℚ), y ∈ xs → y ≤ xs.foldl max x := by
  intro xs
  induction xs with
  | nil => intro x y hy; simp at hy
  | cons a l ih =>
    intro x y hy
    simp only [List.foldl_cons]
    rcases List.mem_cons.mp hy with rfl | hy2
    · exact le_trans (le_max_right x y) (foldl_max_ge_init l (max x y))
    · exact ih (max x a) y hy2

theorem maxOf_ge (l : List ℚ) : ∀ y ∈ l, y ≤ maxOf l := by
  cases l with
  | nil => intro y hy; simp at hy
  | cons x xs =>
    intro y hy
    rcases List.mem_cons.mp hy with rfl | hy2
    · exact foldl_max_ge_init xs y
    · exact foldl_max_ge_mem xs x y hy2

theorem foldl_max_mem : ∀ (xs : List ℚ) (x : ℚ), xs.foldl max x ∈ x :: xs := by
  intro xs
  induction xs with
  | nil => intro x; simp
  | cons a l ih =>
    intro x
    simp only [List.foldl_cons]
    have h := ih (max x a)
    rcases List.mem_cons.mp h with h2 | h2
    · rcases max_choice x a with hc | hc
      · rw [h2, hc]; simp
      · rw [h2, hc]; simp
    · exact List.mem_cons_of_mem _ (List.mem_cons_of_mem _ h2)

theorem maxOf_mem (l : List ℚ) (h : l ≠ []) : maxOf l ∈ l := by
  cases l with
  | nil => exact absurd rfl h
  | cons x xs => exact foldl_max_mem xs x

theorem heightSubset_default_eq_spec (levels : List Level) (lb ub : Option ℚ) :
    MaxInHeight.heightSubset levels
        (lb.getD (minOf (levels.map (fun l => l.height))))
        (ub.getD (maxOf (levels.map (fun l => l.height))))
      = specSubset levels lb ub := by
  unfold MaxInHeight.heightSubset specSubset
  apply List.filter_congr
  intro l hl
  have h1 : (decide ((lb.getD (minOf (levels.map (fun l => l.height)))) ≤ l.height))
      = (match lb with | none => true | some b => decide (b ≤ l.height)) := by
    cases lb with
    | some b => rfl
    | none =>
      simp only [Option.getD_none]
      have hm : minOf (levels.map (fun l => l.height)) ≤ l.height :=
        minOf_le _ _ (List.mem_map_of_mem _ hl)
      simp [hm]
  have h2 : (decide (l.height ≤ (ub.getD (maxOf (levels.map (fun l => l.height))))))
      = (match ub with | none => true | some b => decide (l.height ≤ b)) := by
    cases ub with
    | some b => rfl
    | none =>
      simp only [Option.getD_none]
      have hm : l.height ≤ maxOf (levels.map (fun l => l.height)) :=
        maxOf_ge _ _ (List.mem_map_of_mem _ hl)
      simp [hm]
  rw [h1, h2]

/-- C7: `maximum_in_height` operates on exactly the subset of vertical
levels whose height points lie within `[lower, upper]` inclusive, a
missing bound being replaced by the height coordinate's own minimum or
maximum (which imposes no constraint); it fails when the subset is empty;
it reduces via maximum aggregation when more than one level remains and
passes the single level through unchanged otherwise; the result is renamed
when a new name is supplied. -/
theorem C7_maximum_in_height (cube : MaxInHeight.HCube) (lb ub : Option ℚ) (nm : Option String)
    (hne : cube.levels ≠ []) :
    (specSubset cube.levels lb ub = [] →
      MaxInHeight.maximum_in_height cube lb ub nm =
        Except.error "The provided cube doesn't have any vertical levels between the provided bounds.") ∧
    (∀ x, specSubset cube.levels lb ub = [x] →
      MaxInHeight.maximum_in_height cube lb ub nm =
        Except.ok ⟨nm.getD cube.name, [x]⟩) ∧
    (∀ x y rest, specSubset cube.levels lb ub = x :: y :: rest →
      MaxInHeight.maximum_in_height cube lb ub nm =
        Except.ok ⟨nm.getD cube.name,
          [⟨MaxInHeight.collapsedPoint x (y :: rest),
            MaxInHeight.foldMaxData x (y :: rest)⟩]⟩) := by
  have hmaps : cube.levels.map (fun l => l.height) ≠ [] := by
    intro hx
    exact hne (List.map_eq_nil_iff.mp hx)
  have hlow : (match lb with
      | some l => Except.ok l
      | none => npMin (cube.levels.map (fun l => l.height)))
      = Except.ok (lb.getD (minOf (cube.levels.map (fun l => l.height)))) := by
    cases lb with
    | some b => rfl
    | none => simpa using npMin_ok _ hmaps
  have hup : (match ub with
      | some u => Except.ok u
      | none => npMax (cube.levels.map (fun l => l.height)))
      = Except.ok (ub.getD (maxOf (cube.levels.map (fun l => l.height)))) := by
    cases ub with
    | some b => rfl
    | none => simpa using npMax_ok _ hmaps
  have hsub := heightSubset_default_eq_spec cube.levels lb ub
  unfold MaxInHeight.maximum_in_height
  rw [hlow, hup]
  dsimp only
  rw [hsub]
  refine ⟨?_, ?_, ?_⟩
  · intro h
    rw [h]
  · intro x h
    rw [h]
    dsimp only
    rw [if_neg (by simp)]
    cases nm <;> rfl
  · intro x y rest h
    rw [h]
    dsimp only
    rw [if_pos (by simp)]
    cases nm <;> rfl

theorem C7_maximum_in_height_witness :
    MaxInHeight.maximum_in_height ⟨"w", [⟨100, [1, 2]⟩, ⟨200, [3, 1]⟩, ⟨300, [2, 4]⟩]⟩
        (some 150) (some 300) none =
      Except.ok ⟨"w", [⟨MaxInHeight.collapsedPoint ⟨200, [3, 1]⟩ [⟨300, [2, 4]⟩],
                       MaxInHeight.foldMaxData ⟨200, [3, 1]⟩ [⟨300, [2, 4]⟩]⟩]⟩ :=
  ((C7_maximum_in_height ⟨"w", [⟨100, [1, 2]⟩, ⟨200, [3, 1]⟩, ⟨300, [2, 4]⟩]⟩
      (some 150) (some 300) none (by simp)).2.2) ⟨200, [3, 1]⟩ ⟨300, [2, 4]⟩ [] (by decide)

theorem flatten_pairMap {α : Type} (g : (ℚ × ℚ) → List α) :
    ∀ (L : List (List (ℚ × ℚ))),
      ((L.map (fun l => (l.map g).flatten)).flatten) = (((L.flatten).map g).flatten) := by
  intro L
  induction L with
  | nil => rfl
  | cons l ls ih => simp only [List.map_cons, List.flatten_cons, List.map_append,
      List.flatten_append, ih]

theorem flatBoundVals_eq (cs : List ExpandB.BCoord) :
    ExpandB.flatBoundVals cs
      = ((((cs.filterMap (fun c => c.bounds)).flatten).map (fun p => [p.1, p.2])).flatten) := by
  unfold ExpandB.flatBoundVals
  exact flatten_pairMap _ _

theorem pairsFlat_ne (P : List (ℚ × ℚ)) (h : P ≠ []) :
    ((P.map (fun p => [p.1, p.2])).flatten) ≠ [] := by
  cases P with
  | nil => exact absurd rfl h
  | cons p ps => simp

theorem minOf_pairs_flat (P : List (ℚ × ℚ)) (hne : P ≠ [])
    (hwf : ∀ p ∈ P, p.1 ≤ p.2) :
    minOf ((P.map (fun p => [p.1, p.2])).flatten) = minOf (P.map (fun p => p.1)) := by
  apply le_antisymm
  · apply minOf_le
    have h1 : minOf (P.map (fun p => p.1)) ∈ P.map (fun p => p.1) :=
      minOf_mem _ (by simpa using hne)
    simp only [List.mem_map] at h1
    obtain ⟨p, hp, hq⟩ := h1
    simp only [List.mem_flatten, List.mem_map]
    refine ⟨[p.1, p.2], ⟨p, hp, rfl⟩, ?_⟩
    rw [← hq]
    simp
  · have h1 := minOf_mem _ (pairsFlat_ne P hne)
    simp only [List.mem_flatten, List.mem_map] at h1
    obtain ⟨l, ⟨p, hp, hl⟩, hx⟩ := h1
    subst hl
    have hle : p.1 ≤ minOf ((P.map (fun p => [p.1, p.2])).flatten) := by
      rcases List.mem_cons.mp hx with h | h
      · exact le_of_eq h.symm
      · have h2 : minOf ((P.map (fun p => [p.1, p.2])).flatten) = p.2 := by simpa using h
        rw [h2]
        exact hwf p hp
    exact le_trans (minOf_le _ _ (List.mem_map_of_mem _ hp)) hle

theorem maxOf_pairs_flat (P : List (ℚ × ℚ)) (hne : P ≠ [])
    (hwf : ∀ p ∈ P, p.1 ≤ p.2) :
    maxOf ((P.map (fun p => [p.1, p.2])).flatten) = maxOf (P.map (fun p => p.2)) := by
  apply le_antisymm
  · have h1 := maxOf_mem _ (pairsFlat_ne P hne)
    simp only [List.mem_flatten, List.mem_map] at h1
    obtain ⟨l, ⟨p, hp, hl⟩, hx⟩ := h1
    subst hl
    have hle : maxOf ((P.map (fun p => [p.1, p.2])).flatten) ≤ p.2 := by
      rcases List.mem_cons.mp hx with h | h
      · rw [h]
        exact hwf p hp
      · have h2 : maxOf ((P.map (fun p => [p.1, p.2])).flatten) = p.2 := by simpa using h
        exact le_of_eq h2
    exact le_trans hle (maxOf_ge _ _ (List.mem_map_of_mem _ hp))
  · apply maxOf_ge
    have h1 : maxOf (P.map (fun p => p.2)) ∈ P.map (fun p => p.2) :=
      maxOf_mem _ (by simpa using hne)
    simp only [List.mem_map] at h1
    obtain ⟨p, hp, hq⟩ := h1
    simp only [List.mem_flatten, List.mem_map]
    refine ⟨[p.1, p.2], ⟨p, hp, rfl⟩, ?_⟩
    rw [← hq]
    simp

theorem expand_bounds_single (result_cube : ExpandB.BCube) (cubelist : List ExpandB.BCube)
    (coord : String) :
    ExpandB.expand_bounds result_cube cubelist [coord]
      = match ExpandB.expand_bounds_coord result_cube cubelist coord with
        | Except.error e => Except.error e
        | Except.ok c => Except.ok (ExpandB.updateCoord result_cube c) := by
  unfold ExpandB.expand_bounds
  cases ExpandB.expand_bounds_coord result_cube cubelist coord with
  | error e => rfl
  | ok c => rfl

/-- C4: for a coordinate name whose target coordinate has exactly one
point: when every contributing cube has bounds for it, `expand_bounds`
replaces the target coordinate's bound by `[min of the contributors' lower
bounds, max of their upper bounds]` and its single point by that new upper
bound; when no contributor has bounds, the bound is synthesised as
`[min, max]` of the contributors' points with the point set to the
maximum; in both cases the new bounds and points are cast to the declared
floating precision when their computed dtype is floating.  (Well-formed
bound intervals, `lower ≤ upper`, are assumed in the bounded case — the
source computes `np.min`/`np.max` over the full bounds array, which
coincides with the claim's lower/upper formulation exactly then.) -/
theorem C4_expand_bounds (result_cube : ExpandB.BCube) (cubelist : List ExpandB.BCube)
    (coord : String) (rc : ExpandB.BCoord)
    (hrc : ExpandB.coordOf result_cube coord = some rc)
    (hone : rc.points.length = 1)
    (hall : ∀ cube ∈ cubelist, (ExpandB.coordOf cube coord).isSome = true) :
    ((∀ c ∈ ExpandB.contributorCoords cubelist coord, c.bounds ≠ none) →
     allLowers (ExpandB.contributorCoords cubelist coord) ≠ [] →
     (∀ c ∈ ExpandB.contributorCoords cubelist coord, ∀ bs, c.bounds = some bs →
        ∀ p ∈ bs, p.1 ≤ p.2) →
     ∃ rc', ExpandB.expand_bounds result_cube cubelist [coord]
          = Except.ok (ExpandB.updateCoord result_cube rc') ∧
       rc'.name = rc.name ∧
       rc'.bounds = some [(minOf (allLowers (ExpandB.contributorCoords cubelist coord)),
                           maxOf (allUppers (ExpandB.contributorCoords cubelist coord)))] ∧
       rc'.points = [maxOf (allUppers (ExpandB.contributorCoords cubelist coord))] ∧
       (FLOAT_TYPES.contains (ExpandB.promoteAll
            ((ExpandB.contributorCoords cubelist coord).map (fun c => c.boundsDtype))) = true →
         rc'.boundsDtype = FLOAT_DTYPE ∧ rc'.pointsDtype = FLOAT_DTYPE)) ∧
    ((∀ c ∈ ExpandB.contributorCoords cubelist coord, c.bounds = none) →
     allPoints (ExpandB.contributorCoords cubelist coord) ≠ [] →
     ∃ rc', ExpandB.expand_bounds result_cube cubelist [coord]
          = Except.ok (ExpandB.updateCoord result_cube rc') ∧
       rc'.name = rc.name ∧
       rc'.bounds = some [(minOf (allPoints (ExpandB.contributorCoords cubelist coord)),
                           maxOf (allPoints (ExpandB.contributorCoords cubelist coord)))] ∧
       rc'.points = [maxOf (allPoints (ExpandB.contributorCoords cubelist coord))] ∧
       (FLOAT_TYPES.contains (ExpandB.promoteAll
            ((ExpandB.contributorCoords cubelist coord).map (fun c => c.pointsDtype))) = true →
         rc'.boundsDtype = FLOAT_DTYPE ∧ rc'.pointsDtype = FLOAT_DTYPE)) := by
  constructor
  · intro hA hlowne hwf
    have hPne : ((ExpandB.contributorCoords cubelist coord).filterMap (fun c => c.bounds)) ≠ [] := by
      intro hx
      apply hlowne
      unfold allLowers
      rw [hx]
      rfl
    have hPne2 : (((ExpandB.contributorCoords cubelist coord).filterMap
        (fun c => c.bounds)).flatten) ≠ [] := by
      intro hx
      apply hlowne
      unfold allLowers
      rw [hx]
      rfl
    have hwfP : ∀ p ∈ (((ExpandB.contributorCoords cubelist coord).filterMap
        (fun c => c.bounds)).flatten), p.1 ≤ p.2 := by
      intro p hp
      simp only [List.mem_flatten, List.mem_filterMap] at hp
      obtain ⟨bs, ⟨c, hc, hcb⟩, hpbs⟩ := hp
      exact hwf c hc bs hcb p hpbs
    have hflatne : ExpandB.flatBoundVals (ExpandB.contributorCoords cubelist coord) ≠ [] := by
      rw [flatBoundVals_eq]
      exact pairsFlat_ne _ hPne2
    have hmin : minOf (ExpandB.flatBoundVals (ExpandB.contributorCoords cubelist coord))
        = minOf (allLowers (ExpandB.contributorCoords cubelist coord)) := by
      rw [flatBoundVals_eq]
      exact minOf_pairs_flat _ hPne2 hwfP
    have hmax : maxOf (ExpandB.flatBoundVals (ExpandB.contributorCoords cubelist coord))
        = maxOf (allUppers (ExpandB.contributorCoords cubelist coord)) := by
      rw [flatBoundVals_eq]
      exact maxOf_pairs_flat _ hPne2 hwfP
    have hcoord : ExpandB.expand_bounds_coord result_cube cubelist coord
        = Except.ok (ExpandB.setBoundsAndPoint rc
            (minOf (allLowers (ExpandB.contributorCoords cubelist coord)))
            (maxOf (allUppers (ExpandB.contributorCoords cubelist coord)))
            (ExpandB.promoteAll
              ((ExpandB.contributorCoords cubelist coord).map (fun c => c.boundsDtype)))) := by
      unfold ExpandB.expand_bounds_coord
      rw [hrc]
      dsimp only
      rw [if_neg (by simp [hone])]
      rw [if_neg (by rw [List.all_eq_true.mpr hall]; simp)]
      rw [if_neg (by
        simp only [List.any_eq_true, not_exists, not_and]
        intro b hb
        simp only [List.mem_map] at hb
        obtain ⟨c, hc, hcb⟩ := hb
        subst hcb
        simpa using hA c hc)]
      rw [npMin_ok _ hflatne, npMax_ok _ hflatne]
      dsimp only
      rw [hmin, hmax]
    refine ⟨ExpandB.setBoundsAndPoint rc
        (minOf (allLowers (ExpandB.contributorCoords cubelist coord)))
        (maxOf (allUppers (ExpandB.contributorCoords cubelist coord)))
        (ExpandB.promoteAll
          ((ExpandB.contributorCoords cubelist coord).map (fun c => c.boundsDtype))),
      ?_, rfl, rfl, rfl, ?_⟩
    · rw [expand_bounds_single, hcoord]
    · intro h
      unfold ExpandB.setBoundsAndPoint
      rw [if_pos h]
      exact ⟨rfl, rfl⟩
  · intro hB hptsne
    have hcne : ExpandB.contributorCoords cubelist coord ≠ [] := by
      intro hx
      apply hptsne
      unfold allPoints
      rw [hx]
      rfl
    have hcoord : ExpandB.expand_bounds_coord result_cube cubelist coord
        = Except.ok (ExpandB.setBoundsAndPoint rc
            (minOf (allPoints (ExpandB.contributorCoords cubelist coord)))
            (maxOf (allPoints (ExpandB.contributorCoords cubelist coord)))
            (ExpandB.promoteAll
              ((ExpandB.contributorCoords cubelist coord).map (fun c => c.pointsDtype)))) := by
      unfold ExpandB.expand_bounds_coord
      rw [hrc]
      dsimp only
      rw [if_neg (by simp [hone])]
      rw [if_neg (by rw [List.all_eq_true.mpr hall]; simp)]
      rw [if_pos (by
        apply List.any_eq_true.mpr
        cases hc : ExpandB.contributorCoords cubelist coord with
        | nil => exact absurd hc hcne
        | cons c0 cs =>
          refine ⟨c0.bounds, ?_, ?_⟩
          · simp [hc]
          · have := hB c0 (by rw [hc]; exact List.mem_cons_self _ _)
            simp [this])]
      rw [if_neg (by
        simp only [Bool.not_eq_true', Bool.not_eq_false]
        apply List.all_eq_true.mpr
        intro b hb
        simp only [List.mem_map] at hb
        obtain ⟨c, hc, hcb⟩ := hb
        subst hcb
        simp [hB c hc])]
      rw [show ((ExpandB.contributorCoords cubelist coord).map (fun c => c.points)).flatten
            = allPoints (ExpandB.contributorCoords cubelist coord) from rfl]
      rw [npMin_ok _ hptsne, npMax_ok _ hptsne]
    refine ⟨ExpandB.setBoundsAndPoint rc
        (minOf (allPoints (ExpandB.contributorCoords cubelist coord)))
        (maxOf (allPoints (ExpandB.contributorCoords cubelist coord)))
        (ExpandB.promoteAll
          ((ExpandB.contributorCoords cubelist coord).map (fun c => c.pointsDtype))),
      ?_, rfl, rfl, rfl, ?_⟩
    · rw [expand_bounds_single, hcoord]
    · intro h
      unfold ExpandB.setBoundsAndPoint
      rw [if_pos h]
      exact ⟨rfl, rfl⟩

theorem C4_expand_bounds_witness :
    ∃ rc', ExpandB.expand_bounds
        [⟨"time", DType.float32, [1], DType.float32, some [(0, 1)]⟩]
        [[⟨"time", DType.float32, [1], DType.float32, some [(0, 1)]⟩],
         [⟨"time", DType.float32, [2], DType.float32, some [(1, 2)]⟩]] ["time"]
        = Except.ok (ExpandB.updateCoord
            [⟨"time", DType.float32, [1], DType.float32, some [(0, 1)]⟩] rc') ∧
      rc'.name = "time" ∧
      rc'.bounds = some [(minOf (allLowers (ExpandB.contributorCoords
          [[⟨"time", DType.float32, [1], DType.float32, some [(0, 1)]⟩],
           [⟨"time", DType.float32, [2], DType.float32, some [(1, 2)]⟩]] "time")),
        maxOf (allUppers (ExpandB.contributorCoords
          [[⟨"time", DType.float32, [1], DType.float32, some [(0, 1)]⟩],
           [⟨"time", DType.float32, [2], DType.float32, some [(1, 2)]⟩]] "time")))] ∧
      rc'.points = [maxOf (allUppers (ExpandB.contributorCoords
          [[⟨"time", DType.float32, [1], DType.float32, some [(0, 1)]⟩],
           [⟨"time", DType.float32, [2], DType.float32, some [(1, 2)]⟩]] "time"))] ∧
      (FLOAT_TYPES.contains (ExpandB.promoteAll
          ((ExpandB.contributorCoords
            [[⟨"time", DType.float32, [1], DType.float32, some [(0, 1)]⟩],
             [⟨"time", DType.float32, [2], DType.float32, some [(1, 2)]⟩]] "time").map
            (fun c => c.boundsDtype))) = true →
        rc'.boundsDtype = FLOAT_DTYPE ∧ rc'.pointsDtype = FLOAT_DTYPE) :=
  (C4_expand_bounds
    [⟨"time", DType.float32, [1], DType.float32, some [(0, 1)]⟩]
    [[⟨"time", DType.float32, [1], DType.float32, some [(0, 1)]⟩],
     [⟨"time", DType.float32, [2], DType.float32, some [(1, 2)]⟩]] "time"
    ⟨"time", DType.float32, [1], DType.float32, some [(0, 1)]⟩
    rfl rfl (by decide)).1 (by decide) (by decide) (by decide)

theorem sortLe_sorted_id {α : Type} (le : α → α → Bool) :
    ∀ (l : List α), l.Pairwise (fun a b => le a b = true) → sortLe le l = l := by
  intro l
  induction l with
  | nil => intro _; rfl
  | cons x xs ih =>
    intro hp
    rw [List.pairwise_cons] at hp
    unfold sortLe
    rw [ih hp.2]
    cases xs with
    | nil => rfl
    | cons y ys =>
      unfold insertLe
      rw [if_pos (hp.1 y (List.mem_cons_self _ _))]

theorem takeRows_length : ∀ (k : Nat) (l : List ℚ) (rl : Nat),
    (MergeM.takeRows k l rl).length = k := by
  intro k
  induction k with
  | zero => intro l rl; rfl
  | succ j ih => intro l rl; simp [MergeM.takeRows, ih]

theorem mapExcept_ok_of_forall {α β : Type} (f : α → Except String β) (g : α → β) :
    ∀ (l : List α), (∀ x ∈ l, f x = Except.ok (g x)) →
      mapExcept f l = Except.ok (l.map g) := by
  intro l
  induction l with
  | nil => intro _; rfl
  | cons x xs ih =>
    intro h
    unfold mapExcept
    rw [h x (List.mem_cons_self _ _), ih (fun y hy => h y (List.mem_cons_of_mem _ hy))]
    rfl

theorem flatten_map_singleton {α : Type} : ∀ (l : List α),
    (l.map (fun c => [c])).flatten = l := by
  intro l
  induction l with
  | nil => rfl
  | cons x xs ih => simp [ih]

theorem all_fun_true {α : Type} : ∀ (l : List α), (l.all (fun _ => true)) = true := by
  intro l
  induction l with
  | nil => rfl
  | cons x xs ih => simp [ih]

theorem find?_fst_of_nodup {β : Type} [Inhabited β] :
    ∀ (l : List (ℚ × β)), ((l.map (fun m => m.1))).Nodup →
      ∀ i, i < l.length →
        l.find? (fun m => m.1 == (l.getD i default).1) = some (l.getD i default) := by
  intro l
  induction l with
  | nil => intro _ i hi; simp at hi
  | cons m ms ih =>
    intro hnd i hi
    rw [List.map_cons, List.nodup_cons] at hnd
    cases i with
    | zero =>
      simp only [List.getD_cons_zero]
      exact List.find?_cons_of_pos _ (by simp)
    | succ j =>
      simp only [List.getD_cons_succ]
      have hj : j < ms.length := by simpa using hi
      have hmem : ms.getD j default ∈ ms := by
        rw [List.getD_eq_getElem?_getD, List.getElem?_eq_getElem hj]
        exact List.getElem_mem _
      rw [List.find?_cons_of_neg _ (by
        simp only [beq_iff_eq]
        intro hx
        exact hnd.1 (hx ▸ List.mem_map_of_mem (fun m => m.1) hmem))]
      exact ih hnd.2 j hj

theorem process_pair_dim_mismatch (d c : MergeM.QCube) (x : MergeM.QCoord)
    (hd : d.dim_coord = some x) (hc : c.dim_coord = none) :
    MergeM.process (MergeM.CubesIn.clist [d, c]) false false true
      = Except.error "failed to merge into a single cube: coordinates in cube.dim_coords differ" := by
  unfold MergeM.process
  simp only [Bool.false_eq_true, if_false]
  unfold MergeM.equalise_attributes MergeM.strip_var_names MergeM._equalise_cell_methods
    MergeM.merge_cube MergeM.stripCubeVar
  simp [hd, hc]

/-- C9 counterexample: three concrete single-scalar cubes merge fine as a
triple, but merging the merge of the first two with the third raises a
merge error (the intermediate cube carries a new `time` dimension
coordinate that the scalar third cube lacks), so the two sides of the
claim's equation differ. -/
theorem C9_counterexample :
    MergeM.process (MergeM.CubesIn.clist
      [⟨"air", none, [("src", "uk")], ["m"], [⟨"time", none, [1], none⟩], none, [10]⟩,
       ⟨"air", none, [("src", "uk")], ["m"], [⟨"time", none, [2], none⟩], none, [20]⟩,
       ⟨"air", none, [("src", "uk")], ["m"], [⟨"time", none, [3], none⟩], none, [30]⟩])
      false false true
      = Except.ok ⟨"air", none, [("src", "uk")], ["m"], [],
          some ⟨"time", none, [1, 2, 3], none⟩, [10, 20, 30]⟩ ∧
    MergeM.process (MergeM.CubesIn.clist
      [⟨"air", none, [("src", "uk")], ["m"], [⟨"time", none, [1], none⟩], none, [10]⟩,
       ⟨"air", none, [("src", "uk")], ["m"], [⟨"time", none, [2], none⟩], none, [20]⟩])
      false false true
      = Except.ok ⟨"air", none, [("src", "uk")], ["m"], [],
          some ⟨"time", none, [1, 2], none⟩, [10, 20]⟩ ∧
    MergeM.process (MergeM.CubesIn.clist
      [⟨"air", none, [("src", "uk")], ["m"], [], some ⟨"time", none, [1, 2], none⟩, [10, 20]⟩,
       ⟨"air", none, [("src", "uk")], ["m"], [⟨"time", none, [3], none⟩], none, [30]⟩])
      false false true
      = Except.error "failed to merge into a single cube: coordinates in cube.dim_coords differ" ∧
    (Except.error "failed to merge into a single cube: coordinates in cube.dim_coords differ"
        : Except String MergeM.QCube)
      ≠ Except.ok ⟨"air", none, [("src", "uk")], ["m"], [],
          some ⟨"time", none, [1, 2, 3], none⟩, [10, 20, 30]⟩ :=
  ⟨rfl, rfl, rfl, by simp⟩

/-- C9 (amended): `merge` is not associative.  For a merge-eligible family
`[A, B, C]` of arrays identical except in the value of one scalar
coordinate, merging `[A, B, C]` succeeds, producing one array whose new
dimension coordinate holds the three values in ascending order; but
merging `[merge([A, B]), C]` fails with a merge error, because the
intermediate array carries a dimension coordinate that the scalar array
`C` lacks, so the pair has mismatched dimension coordinates and is not
merge-eligible. -/
theorem C9_merge_not_associative (base : MergeM.QCube) (n : String) (p0 : List ℚ) (a b c : ℚ)
    (hdim : base.dim_coord = none) (hvar : base.var_name = none)
    (hsc : base.scalar_coords = [⟨n, none, p0, none⟩])
    (hab : a < b) (hbc : b < c) :
    (∃ d, MergeM.process (MergeM.CubesIn.clist
        [MergeM.withScalarPoint base n a, MergeM.withScalarPoint base n b,
         MergeM.withScalarPoint base n c]) false false true = Except.ok d ∧
      d.dim_coord = some ⟨n, none, [a, b, c], none⟩ ∧
      d.data = base.data ++ base.data ++ base.data ∧
      d.name = base.name) ∧
    (∃ d2, MergeM.process (MergeM.CubesIn.clist
        [MergeM.withScalarPoint base n a, MergeM.withScalarPoint base n b]) false false true
        = Except.ok d2 ∧
      MergeM.process (MergeM.CubesIn.clist [d2, MergeM.withScalarPoint base n c]) false false true
        = Except.error "failed to merge into a single cube: coordinates in cube.dim_coords differ") := by
  obtain ⟨bn, bv, batt, bcm, bsc, bdim, bdata⟩ := base
  dsimp only at hdim hvar hsc
  subst hdim
  subst hvar
  subst hsc
  have hac : a < c := lt_trans hab hbc
  constructor
  · simp [MergeM.process, MergeM.withScalarPoint, MergeM.equalise_attributes,
      MergeM.strip_var_names, MergeM.stripCubeVar, MergeM.stripCoordVar,
      MergeM._equalise_cell_methods, MergeM.merge_cube, MergeM.diffScalarNames,
      MergeM.scalarNames, MergeM.scalarValue, MergeM.scalarPoint, sortLe, insertLe,
      hab.le, hbc.le, hab.ne, hbc.ne, hac.ne, hab.ne', hbc.ne', hac.ne']
  · simp [MergeM.process, MergeM.withScalarPoint, MergeM.equalise_attributes,
      MergeM.strip_var_names, MergeM.stripCubeVar, MergeM.stripCoordVar,
      MergeM._equalise_cell_methods, MergeM.merge_cube, MergeM.diffScalarNames,
      MergeM.scalarNames, MergeM.scalarValue, MergeM.scalarPoint, sortLe, insertLe,
      hab.le, hab.ne, hab.ne']

theorem C9_merge_not_associative_witness :
    (∃ d, MergeM.process (MergeM.CubesIn.clist
        [MergeM.withScalarPoint
           ⟨"air", none, [("src", "uk")], ["m"], [⟨"time", none, [0], none⟩], none, [10]⟩ "time" 1,
         MergeM.withScalarPoint
           ⟨"air", none, [("src", "uk")], ["m"], [⟨"time", none, [0], none⟩], none, [10]⟩ "time" 2,
         MergeM.withScalarPoint
           ⟨"air", none, [("src", "uk")], ["m"], [⟨"time", none, [0], none⟩], none, [10]⟩ "time" 3])
        false false true = Except.ok d ∧
      d.dim_coord = some ⟨"time", none, [1, 2, 3], none⟩ ∧
      d.data = ([10] : List ℚ) ++ [10] ++ [10] ∧
      d.name = "air") ∧
    (∃ d2, MergeM.process (MergeM.CubesIn.clist
        [MergeM.withScalarPoint
           ⟨"air", none, [("src", "uk")], ["m"], [⟨"time", none, [0], none⟩], none, [10]⟩ "time" 1,
         MergeM.withScalarPoint
           ⟨"air", none, [("src", "uk")], ["m"], [⟨"time", none, [0], none⟩], none, [10]⟩ "time" 2])
        false false true = Except.ok d2 ∧
      MergeM.process (MergeM.CubesIn.clist
        [d2, MergeM.withScalarPoint
           ⟨"air", none, [("src", "uk")], ["m"], [⟨"time", none, [0], none⟩], none, [10]⟩ "time" 3])
        false false true
        = Except.error "failed to merge into a single cube: coordinates in cube.dim_coords differ") :=
  C9_merge_not_associative
    ⟨"air", none, [("src", "uk")], ["m"], [⟨"time", none, [0], none⟩], none, [10]⟩
    "time" [0] 1 2 3 rfl rfl rfl (by norm_num) (by norm_num)

theorem range_add_two (m : ℕ) :
    List.range (m + 2) = 0 :: 1 :: (List.range m).map (fun i => i + 2) := by
  rw [List.range_succ_eq_map, List.range_succ_eq_map, List.map_cons, List.map_map]
  rfl

theorem zip_getD {α β : Type} [Inhabited α] [Inhabited β] :
    ∀ (l1 : List α) (l2 : List β), l1.length = l2.length →
      ∀ j, j < l1.length →
        (l1.zip l2).getD j default = (l1.getD j default, l2.getD j default) := by
  intro l1
  induction l1 with
  | nil => intro l2 _ j hj; simp at hj
  | cons x xs ih =>
    intro l2 hl j hj
    cases l2 with
    | nil => simp at hl
    | cons y ys =>
      cases j with
      | zero => rfl
      | succ k =>
        simp only [List.zip_cons_cons, List.getD_cons_succ]
        exact ih ys (by simpa using hl) k (by simpa using hj)

theorem extractRelabel_ok_range (cube : MergeM.QCube) (q : ℕ → ℚ × ℚ)
    (e : ℕ → MergeM.QCube) :
    ∀ (ns : List ℕ), (∀ i ∈ ns, NReal.extractRealization cube (q i).1 = some (e i)) →
      NReal.extractRelabel cube (ns.map q) =
        Except.ok (ns.map (fun i => MergeM.withScalarPoint (e i) "realization" (q i).2)) := by
  intro ns
  induction ns with
  | nil => intro _; rfl
  | cons i is ih =>
    intro h
    rw [List.map_cons]
    unfold NReal.extractRelabel
    rw [h i (List.mem_cons_self _ _), ih (fun j hj => h j (List.mem_cons_of_mem _ hj))]
    rfl

theorem slices_uniFam (bn : String) (bv : Option String) (A : List (String × String))
    (cm : List String) (r0 : ℚ) (g : ℕ → List ℚ) (n : ℕ) :
    ∀ x ∈ NReal.uniFam bn bv A cm r0 g n,
      MergeM.slices_over_realization x = Except.ok [x] := by
  intro x hx
  obtain ⟨i, -, rfl⟩ := List.mem_map.mp hx
  rfl

theorem equalise_uniFam (bn : String) (bv : Option String) (A : List (String × String))
    (cm : List String) (r0 : ℚ) (g : ℕ → List ℚ) (n : ℕ) :
    MergeM.equalise_attributes (NReal.uniFam bn bv A cm r0 g n)
      = NReal.uniFam bn bv
          (A.filter (fun p => (NReal.uniFam bn bv A cm r0 g n).all
            (fun c2 => MergeM.attrLookup c2.attributes p.1 == some p.2)))
          cm r0 g n := by
  unfold MergeM.equalise_attributes NReal.uniFam
  rw [List.map_map]
  rfl

theorem strip_uniFam (bn : String) (bv : Option String) (A : List (String × String))
    (cm : List String) (r0 : ℚ) (g : ℕ → List ℚ) (n : ℕ) :
    MergeM.strip_var_names (NReal.uniFam bn bv A cm r0 g n)
      = NReal.uniFam bn none A cm r0 g n := by
  unfold MergeM.strip_var_names NReal.uniFam
  rw [List.map_map]
  rfl

theorem setcm_uniFam (bn : String) (bv : Option String) (A : List (String × String))
    (cm cm2 : List String) (r0 : ℚ) (g : ℕ → List ℚ) (n : ℕ) :
    (NReal.uniFam bn bv A cm r0 g n).map
        (fun cube => { cube with cell_methods := cm2 })
      = NReal.uniFam bn bv A cm2 r0 g n := by
  unfold NReal.uniFam
  rw [List.map_map]
  rfl

theorem uniFam_cons2 (bn : String) (bv : Option String) (A : List (String × String))
    (cm : List String) (r0 : ℚ) (g : ℕ → List ℚ) (m : ℕ) :
    NReal.uniFam bn bv A cm r0 g (m + 2)
      = (⟨bn, bv, A, cm, [⟨"realization", none, [r0 + ((0 : ℕ) : ℚ)], none⟩], none,
            g 0⟩ : MergeM.QCube)
        :: (⟨bn, bv, A, cm, [⟨"realization", none, [r0 + ((1 : ℕ) : ℚ)], none⟩], none,
            g 1⟩ : MergeM.QCube)
        :: (List.range m).map (fun (i : ℕ) =>
            (⟨bn, bv, A, cm, [⟨"realization", none, [r0 + ((i + 2 : ℕ) : ℚ)], none⟩], none,
              g (i + 2)⟩ : MergeM.QCube)) := by
  unfold NReal.uniFam
  rw [range_add_two, List.map_cons, List.map_cons, List.map_map]
  rfl

theorem cellmethods_uniFam (bn : String) (bv : Option String) (A : List (String × String))
    (cm : List String) (r0 : ℚ) (g : ℕ → List ℚ) (m : ℕ) :
    ∃ cm2, MergeM._equalise_cell_methods (NReal.uniFam bn bv A cm r0 g (m + 2))
        = NReal.uniFam bn bv A cm2 r0 g (m + 2) := by
  unfold MergeM._equalise_cell_methods
  rw [uniFam_cons2]
  dsimp only
  rw [← uniFam_cons2]
  exact ⟨_, setcm_uniFam bn bv A cm _ r0 g (m + 2)⟩

theorem merge_uniFam (bn : String) (bv : Option String) (A : List (String × String))
    (cm : List String) (r0 : ℚ) (g : ℕ → List ℚ) (m : ℕ) :
    MergeM.merge_cube (NReal.uniFam bn bv A cm r0 g (m + 2))
      = Except.ok ⟨bn, bv, A, cm, [],
          some ⟨"realization", none,
            (List.range (m + 2)).map (fun (i : ℕ) => r0 + (i : ℚ)), none⟩,
          ((List.range (m + 2)).map g).flatten⟩ := by
  have hmap : (NReal.uniFam bn bv A cm r0 g (m + 2)).map
        (fun c => MergeM.scalarPoint c "realization")
      = (List.range (m + 2)).map (fun (i : ℕ) => r0 + (i : ℚ)) := by
    unfold NReal.uniFam
    rw [List.map_map]
    rfl
  have hnd : ((List.range (m + 2)).map (fun (i : ℕ) => r0 + (i : ℚ))).Nodup :=
    (List.nodup_range _).map (fun a b h => Nat.cast_injective (add_left_cancel h))
  have hpairs : (NReal.uniFam bn bv A cm r0 g (m + 2)).map
        (fun c => (MergeM.scalarPoint c "realization", c))
      = (List.range (m + 2)).map (fun (i : ℕ) =>
          ((r0 + (i : ℚ), ⟨bn, bv, A, cm,
            [⟨"realization", none, [r0 + (i : ℚ)], none⟩], none, g i⟩) :
            ℚ × MergeM.QCube)) := by
    unfold NReal.uniFam
    rw [List.map_map]
    rfl
  have hsort : sortLe (fun a b => decide (a.1 ≤ b.1))
        ((List.range (m + 2)).map (fun (i : ℕ) =>
          ((r0 + (i : ℚ), ⟨bn, bv, A, cm,
            [⟨"realization", none, [r0 + (i : ℚ)], none⟩], none, g i⟩) :
            ℚ × MergeM.QCube)))
      = (List.range (m + 2)).map (fun (i : ℕ) =>
          ((r0 + (i : ℚ), ⟨bn, bv, A, cm,
            [⟨"realization", none, [r0 + (i : ℚ)], none⟩], none, g i⟩) :
            ℚ × MergeM.QCube)) := by
    refine sortLe_sorted_id _ _ ?_
    refine List.pairwise_map.mpr (List.Pairwise.imp ?_ (List.pairwise_lt_range _))
    intro a b hab
    exact decide_eq_true (by exact add_le_add_left (by exact_mod_cast hab.le) r0)
  have h1 : ((NReal.uniFam bn bv A cm r0 g (m + 2)).all
      (fun c => c.dim_coord == none)) = true := by
    rw [List.all_eq_true]
    intro x hx
    obtain ⟨i, -, rfl⟩ := List.mem_map.mp hx
    rfl
  rw [uniFam_cons2]
  unfold MergeM.merge_cube
  dsimp only
  rw [← uniFam_cons2]
  rw [h1]
  have h2 : ((NReal.uniFam bn bv A cm r0 g (m + 2)).all
      (fun c => c.name == bn && c.var_name == bv && c.attributes == A &&
        c.cell_methods == cm &&
        decide (MergeM.scalarNames c = MergeM.scalarNames
          (⟨bn, bv, A, cm, [⟨"realization", none, [r0 + ((0 : ℕ) : ℚ)], none⟩], none,
            g 0⟩ : MergeM.QCube)))) = true := by
    rw [List.all_eq_true]
    intro x hx
    obtain ⟨i, -, rfl⟩ := List.mem_map.mp hx
    simp [MergeM.scalarNames]
  rw [h2]
  simp only [Bool.not_true, Bool.false_eq_true, if_false]
  have hvfalse : (MergeM.scalarValue
        (⟨bn, bv, A, cm, [⟨"realization", none, [r0 + ((1 : ℕ) : ℚ)], none⟩], none,
          g 1⟩ : MergeM.QCube) "realization"
      == MergeM.scalarValue
        (⟨bn, bv, A, cm, [⟨"realization", none, [r0 + ((0 : ℕ) : ℚ)], none⟩], none,
          g 0⟩ : MergeM.QCube) "realization") = false := by
    rw [show MergeM.scalarValue
        (⟨bn, bv, A, cm, [⟨"realization", none, [r0 + ((1 : ℕ) : ℚ)], none⟩], none,
          g 1⟩ : MergeM.QCube) "realization"
        = some ⟨"realization", none, [r0 + ((1 : ℕ) : ℚ)], none⟩ from rfl,
      show MergeM.scalarValue
        (⟨bn, bv, A, cm, [⟨"realization", none, [r0 + ((0 : ℕ) : ℚ)], none⟩], none,
          g 0⟩ : MergeM.QCube) "realization"
        = some ⟨"realization", none, [r0 + ((0 : ℕ) : ℚ)], none⟩ from rfl]
    simp
  have hptrue : (!((NReal.uniFam bn bv A cm r0 g (m + 2)).all
      (fun c => MergeM.scalarValue c "realization" == MergeM.scalarValue
        (⟨bn, bv, A, cm, [⟨"realization", none, [r0 + ((0 : ℕ) : ℚ)], none⟩], none,
          g 0⟩ : MergeM.QCube) "realization"))) = true := by
    rw [uniFam_cons2]
    simp only [List.all_cons, hvfalse, Bool.false_and, Bool.and_false, Bool.not_false]
  have h3 : MergeM.diffScalarNames (NReal.uniFam bn bv A cm r0 g (m + 2))
      (⟨bn, bv, A, cm, [⟨"realization", none, [r0 + ((0 : ℕ) : ℚ)], none⟩], none,
        g 0⟩ : MergeM.QCube) = ["realization"] := by
    unfold MergeM.diffScalarNames
    rw [show MergeM.scalarNames
        (⟨bn, bv, A, cm, [⟨"realization", none, [r0 + ((0 : ℕ) : ℚ)], none⟩], none,
          g 0⟩ : MergeM.QCube) = ["realization"] from rfl]
    rw [@List.filter_cons_of_pos _ (fun n => !((NReal.uniFam bn bv A cm r0 g (m + 2)).all
        (fun c => MergeM.scalarValue c n == MergeM.scalarValue
          (⟨bn, bv, A, cm, [⟨"realization", none, [r0 + ((0 : ℕ) : ℚ)], none⟩], none,
            g 0⟩ : MergeM.QCube) n))) "realization" [] hptrue, List.filter_nil]
  rw [h3]
  dsimp only
  rw [if_neg (by decide)]
  rw [hmap]
  rw [if_neg (by simp [hnd])]
  have hb : ((NReal.uniFam bn bv A cm r0 g (m + 2)).all fun c =>
      (Option.map (fun q => q.bounds) (MergeM.scalarValue c "realization")).getD none
        != none) = false := by
    rw [uniFam_cons2]
    simp only [List.all_cons]
    rw [show ((Option.map (fun q => q.bounds) (MergeM.scalarValue
        (⟨bn, bv, A, cm, [⟨"realization", none, [r0 + ((0 : ℕ) : ℚ)], none⟩], none,
          g 0⟩ : MergeM.QCube) "realization")).getD none != none) = false from rfl]
    simp only [Bool.false_and]
  rw [hpairs, hsort, if_neg (by simp [hb])]
  simp only [List.map_map]
  rfl

theorem process_uniFam (bn : String) (bv : Option String) (A : List (String × String))
    (cm : List String) (r0 : ℚ) (g : ℕ → List ℚ) (m : ℕ) :
    ∃ d, MergeM.process (MergeM.CubesIn.clist (NReal.uniFam bn bv A cm r0 g (m + 2)))
        false true true = Except.ok d ∧
      d.name = bn ∧ d.scalar_coords = [] ∧
      d.dim_coord = some ⟨"realization", none,
        (List.range (m + 2)).map (fun (i : ℕ) => r0 + (i : ℚ)), none⟩ ∧
      d.data = ((List.range (m + 2)).map g).flatten := by
  have hmE : mapExcept MergeM.slices_over_realization (NReal.uniFam bn bv A cm r0 g (m + 2))
      = Except.ok ((NReal.uniFam bn bv A cm r0 g (m + 2)).map (fun c => [c])) :=
    mapExcept_ok_of_forall _ _ _ (slices_uniFam bn bv A cm r0 g (m + 2))
  obtain ⟨cm2, hcm⟩ := cellmethods_uniFam bn none
    (A.filter (fun p => (NReal.uniFam bn bv A cm r0 g (m + 2)).all
      (fun c2 => MergeM.attrLookup c2.attributes p.1 == some p.2)))
    cm r0 g m
  rw [uniFam_cons2]
  unfold MergeM.process
  dsimp only
  rw [if_pos rfl]
  rw [← uniFam_cons2, hmE]
  dsimp only
  rw [flatten_map_singleton, equalise_uniFam, strip_uniFam, hcm, merge_uniFam]
  simp only [Bool.false_eq_true, if_false]
  exact ⟨_, rfl, rfl, rfl, rfl, rfl⟩

theorem extractReal_dim (bn : String) (bv : Option String) (A : List (String × String))
    (cm : List String) (pts : List ℚ) (bdata : List ℚ)
    (hnd : pts.Nodup) (j : ℕ) (hj : j < pts.length) :
    NReal.extractRealization
        (⟨bn, bv, A, cm, [], some ⟨"realization", none, pts, none⟩, bdata⟩ : MergeM.QCube)
        (pts.getD j 0)
      = some (⟨bn, bv, A, cm,
          [⟨"realization", none, [pts.getD j 0], none⟩], none,
          (MergeM.takeRows pts.length bdata (bdata.length / pts.length)).getD j []⟩ :
          MergeM.QCube) := by
  have hrl : (MergeM.takeRows pts.length bdata (bdata.length / pts.length)).length
      = pts.length := takeRows_length _ _ _
  have hzf : ((pts.zip (MergeM.takeRows pts.length bdata (bdata.length / pts.length))).map
      (fun m => m.1)).Nodup := by
    rw [show ((pts.zip (MergeM.takeRows pts.length bdata (bdata.length / pts.length))).map
          (fun m => m.1))
        = List.map Prod.fst
            (pts.zip (MergeM.takeRows pts.length bdata (bdata.length / pts.length))) from rfl,
      List.map_fst_zip pts _ (le_of_eq hrl.symm)]
    exact hnd
  have hzlen : j < (pts.zip
      (MergeM.takeRows pts.length bdata (bdata.length / pts.length))).length := by
    rw [List.length_zip, hrl, Nat.min_self]
    exact hj
  have hzd : (pts.zip (MergeM.takeRows pts.length bdata
        (bdata.length / pts.length))).getD j default
      = (pts.getD j default,
          (MergeM.takeRows pts.length bdata (bdata.length / pts.length)).getD j default) :=
    zip_getD pts _ hrl.symm j hj
  unfold NReal.extractRealization
  rw [show MergeM.slices_over_realization
        (⟨bn, bv, A, cm, [], some ⟨"realization", none, pts, none⟩, bdata⟩ : MergeM.QCube)
      = Except.ok ((pts.zip (MergeM.takeRows pts.length bdata
          (bdata.length / pts.length))).map
          (fun p => (⟨bn, bv, A, cm, [⟨"realization", none, [p.1], none⟩], none, p.2⟩ :
            MergeM.QCube))) from rfl]
  dsimp only
  rw [List.find?_map]
  rw [show ((fun s => MergeM.scalarPoint s "realization" == pts.getD j 0) ∘
      (fun p : ℚ × List ℚ => (⟨bn, bv, A, cm, [⟨"realization", none, [p.1], none⟩], none,
        p.2⟩ : MergeM.QCube)))
      = (fun p : ℚ × List ℚ => p.1 == pts.getD j 0) from rfl]
  rw [show (pts.getD j 0)
      = ((pts.zip (MergeM.takeRows pts.length bdata
          (bdata.length / pts.length))).getD j default).1 from by rw [hzd]; rfl]
  rw [find?_fst_of_nodup _ hzf j hzlen]
  rw [hzd]
  rfl

theorem relabel_uniFam (bn : String) (bv : Option String) (A : List (String × String))
    (cm : List String) (pts : List ℚ) (bdata : List ℚ)
    (hnd : pts.Nodup) (hne : pts ≠ []) (n : ℕ) :
    NReal.extractRelabel
        (⟨bn, bv, A, cm, [], some ⟨"realization", none, pts, none⟩, bdata⟩ : MergeM.QCube)
        (((List.range n).map (fun index => pts.getD (index % pts.length) 0)).zip
          ((List.range n).map (fun (i : ℕ) => pts.getD 0 0 + (i : ℚ))))
      = Except.ok (NReal.uniFam bn bv A cm (pts.getD 0 0)
          (fun i => (MergeM.takeRows pts.length bdata (bdata.length / pts.length)).getD
            (i % pts.length) []) n) := by
  rw [List.zip_map']
  rw [extractRelabel_ok_range
      (⟨bn, bv, A, cm, [], some ⟨"realization", none, pts, none⟩, bdata⟩ : MergeM.QCube)
      (fun index => (pts.getD (index % pts.length) 0, pts.getD 0 0 + (index : ℚ)))
      (fun i => (⟨bn, bv, A, cm,
        [⟨"realization", none, [pts.getD (i % pts.length) 0], none⟩], none,
        (MergeM.takeRows pts.length bdata (bdata.length / pts.length)).getD
          (i % pts.length) []⟩ : MergeM.QCube))
      (List.range n)
      (fun i _ => extractReal_dim bn bv A cm pts bdata hnd (i % pts.length)
        (Nat.mod_lt i (List.length_pos.mpr hne)))]
  rfl

/-- C6: `manipulate_n_realizations` fails hard on a cube without a
realization dimension coordinate, reporting the dimension coordinates
found; returns the input unchanged when the member count already equals
the requested count; and otherwise selects the requested number of members
by indexing the existing realization identifiers modulo their count,
relabels them with consecutive ascending identifiers starting at the first
original one, and merges them back with `MergeCubes.process`
(`slice_over_realization` enabled): the result keeps the cube's name, its
realization dimension coordinate holds the identifiers `pts[0] + i`, and
its payload recycles the original realization rows modulo the original
member count. -/
theorem C6_manipulate_n_realizations (bn : String) (bv : Option String)
    (A : List (String × String)) (cm : List String) (pts bdata : List ℚ)
    (k m : ℕ) (hnd : pts.Nodup) (hne : pts ≠ []) (hlen : pts.length ≠ m + 2) :
    (∀ c : MergeM.QCube, NReal.hasRealizationDim c = false →
      NReal.manipulate_n_realizations c k = Except.error
        ("Input cube does not contain realizations. The following dimension coordinates were found: "
          ++ toString (NReal.dimCoordNames c))) ∧
    NReal.manipulate_n_realizations
        (⟨bn, bv, A, cm, [], some ⟨"realization", none, pts, none⟩, bdata⟩ : MergeM.QCube)
        pts.length
      = Except.ok (⟨bn, bv, A, cm, [], some ⟨"realization", none, pts, none⟩, bdata⟩ :
          MergeM.QCube) ∧
    (∃ d, NReal.manipulate_n_realizations
        (⟨bn, bv, A, cm, [], some ⟨"realization", none, pts, none⟩, bdata⟩ : MergeM.QCube)
        (m + 2)
      = Except.ok d ∧
      d.name = bn ∧
      d.dim_coord = some ⟨"realization", none,
        (List.range (m + 2)).map (fun (i : ℕ) => pts.getD 0 0 + (i : ℚ)), none⟩ ∧
      d.data = ((List.range (m + 2)).map (fun (i : ℕ) =>
        (MergeM.takeRows pts.length bdata (bdata.length / pts.length)).getD
          (i % pts.length) [])).flatten) := by
  refine ⟨?_, ?_, ?_⟩
  · intro c hc
    unfold NReal.manipulate_n_realizations
    rw [hc]
    rfl
  · unfold NReal.manipulate_n_realizations
    rw [show NReal.hasRealizationDim
        (⟨bn, bv, A, cm, [], some ⟨"realization", none, pts, none⟩, bdata⟩ : MergeM.QCube)
        = true from rfl]
    simp only [Bool.not_true, Bool.false_eq_true, if_false]
    rw [show MergeM.cubeCoord
        (⟨bn, bv, A, cm, [], some ⟨"realization", none, pts, none⟩, bdata⟩ : MergeM.QCube)
        "realization" = some ⟨"realization", none, pts, none⟩ from rfl]
    dsimp only
    rw [if_pos (beq_self_eq_true pts.length)]
  · unfold NReal.manipulate_n_realizations
    rw [show NReal.hasRealizationDim
        (⟨bn, bv, A, cm, [], some ⟨"realization", none, pts, none⟩, bdata⟩ : MergeM.QCube)
        = true from rfl]
    simp only [Bool.not_true, Bool.false_eq_true, if_false]
    rw [show MergeM.cubeCoord
        (⟨bn, bv, A, cm, [], some ⟨"realization", none, pts, none⟩, bdata⟩ : MergeM.QCube)
        "realization" = some ⟨"realization", none, pts, none⟩ from rfl]
    dsimp only
    rw [if_neg (by simpa using hlen)]
    rw [if_neg (by simpa [List.length_eq_zero] using hne)]
    cases hrl : (List.range (m + 2)).map
        (fun index => pts.getD (index % pts.length) 0) with
    | nil => simp at hrl
    | cons r0 rest =>
      have hr0 : r0 = pts.getD 0 0 := by
        rw [range_add_two, List.map_cons] at hrl
        have := (List.cons.injEq _ _ _ _).mp hrl
        rw [← this.1, Nat.zero_mod]
      dsimp only
      rw [← hrl, hr0]
      rw [relabel_uniFam bn bv A cm pts bdata hnd hne (m + 2)]
      dsimp only
      obtain ⟨d, hp, hnm, -, hdim, hdata⟩ :=
        process_uniFam bn bv A cm (pts.getD 0 0)
          (fun i => (MergeM.takeRows pts.length bdata (bdata.length / pts.length)).getD
            (i % pts.length) []) m
      rw [hp]
      exact ⟨d, rfl, hnm, hdim, hdata⟩

theorem C6_manipulate_n_realizations_witness :
    ([(1 : ℚ), 2, 3]).Nodup ∧
    NReal.manipulate_n_realizations
        (⟨"air", none, [("src", "uk")], ["m"], [],
          some ⟨"latitude", none, [7], none⟩, [5]⟩ : MergeM.QCube) 5
      = Except.error ("Input cube does not contain realizations. The following dimension coordinates were found: "
          ++ toString ["latitude"]) ∧
    NReal.manipulate_n_realizations
        (⟨"air", none, [("src", "uk")], ["m"], [],
          some ⟨"realization", none, [1, 2, 3], none⟩, [10, 20, 30]⟩ : MergeM.QCube)
        ([(1 : ℚ), 2, 3]).length
      = Except.ok (⟨"air", none, [("src", "uk")], ["m"], [],
          some ⟨"realization", none, [1, 2, 3], none⟩, [10, 20, 30]⟩ : MergeM.QCube) ∧
    (∃ d, NReal.manipulate_n_realizations
        (⟨"air", none, [("src", "uk")], ["m"], [],
          some ⟨"realization", none, [1, 2, 3], none⟩, [10, 20, 30]⟩ : MergeM.QCube) 5
      = Except.ok d ∧
      d.name = "air" ∧
      d.dim_coord = some ⟨"realization", none, [1, 2, 3, 4, 5], none⟩ ∧
      d.data = [10, 20, 30, 10, 20]) := by
  obtain ⟨ha, hb, hc⟩ := C6_manipulate_n_realizations "air" none [("src", "uk")] ["m"]
    [1, 2, 3] [10, 20, 30] 5 3 (by decide) (by decide) (by decide)
  refine ⟨by decide, ?_, hb, ?_⟩
  · exact ha ⟨"air", none, [("src", "uk")], ["m"], [],
      some ⟨"latitude", none, [7], none⟩, [5]⟩ rfl
  · obtain ⟨d, hp, h1, h2, h3⟩ := hc
    refine ⟨d, hp, h1, ?_, ?_⟩
    · rw [h2, show List.range (3 + 2) = [0, 1, 2, 3, 4] from rfl]
      norm_num
    · rw [h3, show List.range (3 + 2) = [0, 1, 2, 3, 4] from rfl]
      norm_num [MergeM.takeRows]
